import Mathlib

/-!
Verification development for the `jsonsubschema` JSON Schema subtype engine.

The repository ships the explain/diagnostics module (`jsonsubschema/_explain.py`)
together with an extensive test suite; the core decision engine (loader,
canonicalizer, per-kind deciders, regex adapter) is specified in `spec.md`.
Definitions below embed the shipped Python source where it exists and model the
remaining components from the specification, as indicated by each doc comment.
-/

namespace JsonSub

/-! ## Embedding of `jsonsubschema/_explain.py` -/

/-- Embeds the Python dataclass `SubschemaResult` of `_explain.py`:
`is_subtype : bool` and `reasons : List[str]` with default `[]`
(`field(default_factory=list)`). -/
structure SubschemaResult where
  is_subtype : Bool
  reasons : List String := []
deriving Repr, DecidableEq

/-- Embeds `SubschemaResult.__bool__`, which returns `self.is_subtype`. -/
def SubschemaResult.toBool (r : SubschemaResult) : Bool :=
  r.is_subtype

/-- Embeds the mutable per-thread state of `ExplainContext` (`_explain.py`):
`self.reasons : List[str]` and `self.path : List[str]`, both initialized
empty by `__init__`. -/
structure ExplainContext where
  reasons : List String := []
  path : List String := []
deriving Repr, DecidableEq

/-- Embeds `ExplainContext.push_path`: `self.path.append(segment)`. -/
def ExplainContext.push_path (ctx : ExplainContext) (segment : String) :
    ExplainContext :=
  { ctx with path := ctx.path ++ [segment] }

/-- Embeds `ExplainContext.pop_path`: pops the last segment when the stack is
non-empty, returning the new context and the popped segment. -/
def ExplainContext.pop_path (ctx : ExplainContext) :
    ExplainContext × Option String :=
  if ctx.path.isEmpty then (ctx, none)
  else ({ ctx with path := ctx.path.dropLast }, ctx.path.getLast?)

/-- Embeds `ExplainContext.get_path_str`:
`return "/" + "/".join(self.path) if self.path else "/"`. -/
def ExplainContext.get_path_str (ctx : ExplainContext) : String :=
  if ctx.path.isEmpty then "/" else "/" ++ String.intercalate "/" ctx.path

/-- Embeds `ExplainContext.add_reason`:
`self.reasons.append(f"[{code}] {message} (at {path_str})")`. -/
def ExplainContext.add_reason (ctx : ExplainContext) (code message : String) :
    ExplainContext :=
  { ctx with
    reasons := ctx.reasons ++
      ["[" ++ code ++ "] " ++ message ++ " (at " ++ ctx.get_path_str ++ ")"] }

/-- Embeds `ExplainContext.add_reason_raw`: appends the raw message. -/
def ExplainContext.add_reason_raw (ctx : ExplainContext) (message : String) :
    ExplainContext :=
  { ctx with reasons := ctx.reasons ++ [message] }

/-! ## JSON values

Modelled from the spec: the generic JSON tree produced by the loader (§2 item 1,
out-of-scope collaborator with a stated interface).  JSON numbers are exact
decimals, represented as rationals (§4.4 requires exact rational arithmetic). -/

/-- The seven JSON kinds of the spec (§3): the closed set K. -/
inductive Kind where
  | knull | kbool | kstr | knum | kint | karr | kobj
deriving Repr, DecidableEq

/-- Primitive JSON values: the values an enum-set may carry after
canonicalization (spec §4.2 rejects Array/Object enum literals). -/
inductive PVal where
  | pnull
  | pbool (b : Bool)
  | pnum (q : ℚ)
  | pstr (s : String)
deriving Repr, DecidableEq

/-- A JSON instance (parsed document tree). -/
inductive JVal where
  | null
  | bool (b : Bool)
  | num (q : ℚ)
  | str (s : String)
  | arr (elems : List JVal)
  | obj (fields : List (String × JVal))
deriving Repr

mutual

/-- Structural equality of JSON values (the instance-equality used by `enum`
and `uniqueItems`; `1` and `1.0` are the same rational, per spec §4.4). -/
def jeq : JVal → JVal → Bool
  | .null, .null => true
  | .bool a, .bool b => a == b
  | .num a, .num b => a == b
  | .str a, .str b => a == b
  | .arr a, .arr b => jeqList a b
  | .obj a, .obj b => jeqFields a b
  | _, _ => false

/-- Elementwise equality of JSON arrays. -/
def jeqList : List JVal → List JVal → Bool
  | [], [] => true
  | a :: as_, b :: bs => jeq a b && jeqList as_ bs
  | _, _ => false

/-- Fieldwise equality of JSON objects (ordered, as parsed). -/
def jeqFields : List (String × JVal) → List (String × JVal) → Bool
  | [], [] => true
  | (k, a) :: as_, (l, b) :: bs => k == l && jeq a b && jeqFields as_ bs
  | _, _ => false

end

/-- The kind of a JSON value; integers are the numbers with denominator 1
(spec §3: Integer is a proper refinement of Number). -/
def kindOf : JVal → Kind
  | .null => .knull
  | .bool _ => .kbool
  | .num q => if q.den = 1 then .kint else .knum
  | .str _ => .kstr
  | .arr _ => .karr
  | .obj _ => .kobj

/-- Whether value `v` belongs to kind `k`; every integer is also a number. -/
def kindMatches (k : Kind) (v : JVal) : Bool :=
  match k, v with
  | .knull, .null => true
  | .kbool, .bool _ => true
  | .kstr, .str _ => true
  | .knum, .num _ => true
  | .kint, .num q => q.den = 1
  | .karr, .arr _ => true
  | .kobj, .obj _ => true
  | _, _ => false

/-! ## Regex adapter

Modelled from the spec: the regex engine adapter (§4.9) over anchored regular
languages.  Patterns cover the ECMA subset used by the engine's schemas as
chains of character-class atoms with `one`, `plus` (`+`) and `star` (`*`)
quantifiers; character classes are unions of inclusive ranges, `.` being the
full range.  The adapter provides matching, a conservative containment test
`L(p) ⊆ L(q)`, a conservative non-emptiness test for `L(p) ∩ L(q)`, and the
finite-language test, with unsupported shapes answered conservatively as the
spec's `RegexUnsupported` policy prescribes (undecided leans negative). -/

/-- An inclusive character range. -/
structure CRange where
  lo : Char
  hi : Char
deriving Repr, DecidableEq

/-- A character class: a union of inclusive ranges. -/
abbrev CharSet := List CRange

/-- Class membership. -/
def csMem (cs : CharSet) (c : Char) : Bool :=
  cs.any fun r => r.lo.toNat ≤ c.toNat && c.toNat ≤ r.hi.toNat

/-- Conservative class inclusion: every range of `a` lies inside a single
range of `b` (sound, and reflexive by construction). -/
def csSubset (a b : CharSet) : Bool :=
  a.all fun r => b.any fun s => s.lo.toNat ≤ r.lo.toNat && r.hi.toNat ≤ s.hi.toNat

/-- Conservative non-emptiness of a class intersection. -/
def csOverlap (a b : CharSet) : Bool :=
  a.any fun r => b.any fun s =>
    max r.lo.toNat s.lo.toNat ≤ min r.hi.toNat s.hi.toNat

/-- Whether a class holds at least one character. -/
def csInhabited (cs : CharSet) : Bool :=
  cs.any fun r => r.lo.toNat ≤ r.hi.toNat

/-- The full class (the `.` metacharacter). -/
def csAny : CharSet := [⟨Char.ofNat 0, Char.ofNat 0x10FFFF⟩]

/-- A singleton class for a literal character. -/
def csChar (c : Char) : CharSet := [⟨c, c⟩]

/-- Atom quantifiers: exactly one, one-or-more, zero-or-more. -/
inductive Quant where
  | one | plus | star
deriving Repr, DecidableEq

/-- One regex atom: a character class under a quantifier. -/
structure Atom where
  cls : CharSet
  q : Quant
deriving Repr, DecidableEq

/-- A pattern in full-match (already unanchored, spec §3/§4.9) normal form:
a chain of atoms matched against the whole key. -/
abbrev Pattern := List Atom

/-- `.*` as an atom. -/
def anyStar : Atom := ⟨csAny, .star⟩

/-- Full-match semantics of a pattern chain against a character list,
fueled (every step either shortens the key or the chain, so the structural
fuel below is always sufficient). -/
def pmatchF : Nat → Pattern → List Char → Bool
  | 0, _, _ => false
  | _ + 1, [], s => s.isEmpty
  | n + 1, ⟨cs, .one⟩ :: p, s =>
    match s with
    | [] => false
    | c :: s => csMem cs c && pmatchF n p s
  | n + 1, ⟨cs, .plus⟩ :: p, s =>
    match s with
    | [] => false
    | c :: s => csMem cs c && pmatchF n (⟨cs, .star⟩ :: p) s
  | n + 1, ⟨cs, .star⟩ :: p, s =>
    pmatchF n p s ||
      match s with
      | [] => false
      | c :: s => csMem cs c && pmatchF n (⟨cs, .star⟩ :: p) s

/-- Full-match semantics of a pattern chain. -/
def pmatch (p : Pattern) (s : List Char) : Bool :=
  pmatchF ((s.length + 1) * (p.length + 1)) p s

/-- Matching against a string key. -/
def pmatchStr (p : Pattern) (s : String) : Bool :=
  pmatch p s.toList

/-- Adapter containment `L(p) ⊆ L(q)` (§4.9 `contains`), decided
conservatively on the chain fragment: `false` stands for "not known to be
contained", which the deciders treat as the spec's undecided-leaning-negative
answer. -/
def pinclF : Nat → Pattern → Pattern → Bool
  | 0, _, _ => false
  | _ + 1, [], [] => true
  | n + 1, [], ⟨_, .star⟩ :: q => pinclF n [] q
  | _ + 1, [], _ => false
  | _ + 1, _ :: _, [] => false
  | n + 1, ⟨c, .one⟩ :: p, ⟨d, .one⟩ :: q => csSubset c d && pinclF n p q
  | n + 1, ⟨c, .one⟩ :: p, ⟨d, .plus⟩ :: q =>
    csSubset c d && pinclF n p (⟨d, .star⟩ :: q)
  | n + 1, ⟨c, .plus⟩ :: p, ⟨d, .plus⟩ :: q =>
    csSubset c d && pinclF n (⟨c, .star⟩ :: p) (⟨d, .star⟩ :: q)
  | n + 1, ⟨c, .plus⟩ :: p, ⟨d, .star⟩ :: q =>
    (csSubset c d && pinclF n p (⟨d, .star⟩ :: q)) ||
      pinclF n (⟨c, .plus⟩ :: p) q
  | n + 1, ⟨c, .star⟩ :: p, ⟨d, .star⟩ :: q =>
    (csSubset c d && pinclF n p (⟨d, .star⟩ :: q)) ||
      pinclF n (⟨c, .star⟩ :: p) q
  | n + 1, ⟨c, .one⟩ :: p, ⟨d, .star⟩ :: q =>
    (csSubset c d && pinclF n p (⟨d, .star⟩ :: q)) ||
      pinclF n (⟨c, .one⟩ :: p) q
  | _ + 1, _ :: _, _ :: _ => false

/-- The weight of a pattern for the containment fuel: every `pinclF` step
strictly decreases the summed weight of the two sides. -/
def pwt (p : Pattern) : Nat :=
  p.length + p.countP fun a => a.q == Quant.plus

/-- Adapter containment with sufficient structural fuel. -/
def pincl (p q : Pattern) : Bool :=
  pinclF (pwt p + pwt q + 1) p q

/-- Whether the pattern can match the empty key. -/
def pnullable (p : Pattern) : Bool :=
  p.all fun a => a.q == Quant.star

/-- Adapter intersection non-emptiness (`intersection` plus an emptiness
check, §4.9), decided conservatively: star atoms are dropped (they can match
the empty word), and the remaining mandatory atoms are compared pointwise. -/
def poverF : Nat → Pattern → Pattern → Bool
  | 0, _, _ => false
  | _ + 1, [], q => pnullable q
  | _ + 1, p, [] => pnullable p
  | n + 1, ⟨_, .star⟩ :: p, q => poverF n p q
  | n + 1, p, ⟨_, .star⟩ :: q => poverF n p q
  | n + 1, ⟨c, .one⟩ :: p, ⟨d, .one⟩ :: q => csOverlap c d && poverF n p q
  | n + 1, ⟨c, .plus⟩ :: p, ⟨d, .plus⟩ :: q =>
    csOverlap c d && poverF n (⟨c, .star⟩ :: p) (⟨d, .star⟩ :: q)
  | n + 1, ⟨c, .one⟩ :: p, ⟨d, .plus⟩ :: q =>
    csOverlap c d && poverF n p (⟨d, .star⟩ :: q)
  | n + 1, ⟨c, .plus⟩ :: p, ⟨d, .one⟩ :: q =>
    csOverlap c d && poverF n (⟨c, .star⟩ :: p) q

/-- Adapter intersection non-emptiness with sufficient structural fuel. -/
def pover (p q : Pattern) : Bool :=
  poverF (pwt p + pwt q + 1) p q

/-- Adapter finiteness test (`is_finite`, §4.9): a chain with no unbounded
quantifier over an inhabited class has a finite language. -/
def pfinite (p : Pattern) : Bool :=
  p.all fun a => a.q == Quant.one || !csInhabited a.cls

/-- A raw (source-level) regex literal: anchoring flags plus the body chain.
`^p$` carries both flags; a bare `p` carries neither (substring semantics). -/
structure RawPattern where
  ancStart : Bool
  ancEnd : Bool
  body : Pattern
deriving Repr, DecidableEq

/-- The unanchor rewrite of §4.9: strip anchors in place, wrap unanchored
sides in `.*`. -/
def unanchor (rp : RawPattern) : Pattern :=
  (if rp.ancStart then [] else [anyStar]) ++ rp.body ++
    (if rp.ancEnd then [] else [anyStar])

/-! ## Canonical schemas

Modelled from the spec: the canonical type schema (cTS) and canonical union
of §3.  A canonical schema (`CSch`) is the ordered union of cTSs; ⊥ is the
empty union and ⊤ the union of per-kind defaults.  A `multipleOf` payload is
a positive rational (§3, `multipleOf: ℚ>0`; `multipleOf ≤ 0` is rejected as
`MalformedSchema` before canonicalization, §7).  `none` for an
`additionalProperties`, `additionalItems` or list-`items` slot denotes the
default ⊤ of that slot. -/

/-- A positive rational, the payload of `multipleOf` (§3). -/
abbrev MultQ := {q : ℚ // 0 < q}

instance : DecidableEq MultQ := fun a b =>
  decidable_of_iff (a.val = b.val) Subtype.ext_iff.symm

/-- Canonical type schema: one constructor per kind (Number and Integer share
a constructor, distinguished by `intOnly`, reflecting Integer ⊂ Number). -/
inductive CTS where
  | cnull (enm : Option (List PVal))
  | cbool (enm : Option (List PVal))
  | cstr (minL : Nat) (maxL : Option Nat) (pat : Option Pattern)
      (enm : Option (List PVal))
  | cnum (intOnly : Bool) (mn : Option ℚ) (emn : Bool) (mx : Option ℚ)
      (emx : Bool) (mult : Option MultQ) (enm : Option (List PVal))
  | carr (pre : List (List CTS)) (tail : Option (List CTS)) (minI : Nat)
      (maxI : Option Nat) (uniq : Bool)
  | cobj (props : List (String × List CTS)) (pats : List (Pattern × List CTS))
      (addl : Option (List CTS)) (req : List String) (minP : Nat)
      (maxP : Option Nat)
deriving Repr

/-- A canonical schema: a canonical union of cTSs; `[]` is ⊥. -/
abbrev CSch := List CTS

/-- Default (unconstrained) cTSs per kind (§3 payload defaults). -/
def dnull : CTS := .cnull none

/-- Default boolean cTS. -/
def dbool : CTS := .cbool none

/-- Default string cTS. -/
def dstr : CTS := .cstr 0 none none none

/-- Default number cTS. -/
def dnum : CTS := .cnum false none false none false none none

/-- Default integer cTS. -/
def dint : CTS := .cnum true none false none false none none

/-- Default array cTS (list mode, items ⊤). -/
def darr : CTS := .carr [] none 0 none false

/-- Default object cTS. -/
def dobj : CTS := .cobj [] [] none [] 0 none

/-- ⊤: the canonical union of the per-kind defaults, with the default Integer
absorbed into the default Number (§3 invariant). -/
def topSchema : CSch := [dnull, dbool, dstr, dnum, darr, dobj]

/-- The canonical union produced for an unconstrained schema before the
Integer default is absorbed: one default cTS per source kind (§4.2). -/
def allKindsTop : CSch := [dnull, dbool, dstr, dnum, dint, darr, dobj]

/-- Exact rational multiplication through `mkRat` (kept in primitive form
so that concrete decisions evaluate). -/
def ratMul (a b : ℚ) : ℚ :=
  mkRat (a.num * b.num) (a.den * b.den)

/-- Exact rational division through `mkRat`. -/
def ratDiv (a b : ℚ) : ℚ :=
  if b.num < 0 then mkRat (-(a.num * b.den)) (a.den * b.num.natAbs)
  else mkRat (a.num * b.den) (a.den * b.num.natAbs)

theorem ratMul_eq (a b : ℚ) : ratMul a b = a * b := by
  unfold ratMul
  rw [Rat.mkRat_eq_div]
  push_cast
  calc ((a.num : ℚ) * b.num) / ((a.den : ℚ) * b.den)
      = ((a.num : ℚ) / a.den) * ((b.num : ℚ) / b.den) := by
        rw [div_mul_div_comm]
    _ = a * b := by rw [Rat.num_div_den, Rat.num_div_den]

theorem ratDiv_eq (a b : ℚ) : ratDiv a b = a / b := by
  unfold ratDiv
  have had : (a.den : ℚ) ≠ 0 := Nat.cast_ne_zero.mpr a.den_nz
  have hbd : (b.den : ℚ) ≠ 0 := Nat.cast_ne_zero.mpr b.den_nz
  have han : (a.num : ℚ) = a * a.den := (div_eq_iff had).mp (Rat.num_div_den a)
  have hbn : (b.num : ℚ) = b * b.den := (div_eq_iff hbd).mp (Rat.num_div_den b)
  rcases lt_trichotomy b.num 0 with hneg | hzero | hpos
  · have hb : b ≠ 0 := fun hb0 => by simp [hb0] at hneg
    have hbnq : (b.num : ℚ) ≠ 0 := by exact_mod_cast (by omega : b.num ≠ 0)
    rw [if_pos hneg, Rat.mkRat_eq_div]
    have habs : ((b.num.natAbs : ℕ) : ℚ) = -(b.num : ℚ) := by
      rw [Int.cast_natAbs]
      simp [abs_of_neg (show (b.num : ℚ) < 0 by exact_mod_cast hneg)]
    push_cast
    rw [habs, div_eq_div_iff]
    · rw [han, hbn]
      ring
    · apply mul_ne_zero had
      simpa using hbnq
    · exact hb
  · rw [if_neg (by omega)]
    have hb0 : b = 0 := by
      rw [← Rat.num_div_den b, hzero]
      simp
    subst hb0
    simp [Rat.mkRat_eq_div]
  · have hb : b ≠ 0 := fun hb0 => by simp [hb0] at hpos
    have hbnq : (b.num : ℚ) ≠ 0 := by exact_mod_cast (by omega : b.num ≠ 0)
    rw [if_neg (by omega), Rat.mkRat_eq_div]
    have habs : ((b.num.natAbs : ℕ) : ℚ) = (b.num : ℚ) := by
      rw [Int.cast_natAbs]
      simp [abs_of_pos (show (0 : ℚ) < (b.num : ℚ) by exact_mod_cast hpos)]
    push_cast
    rw [habs, div_eq_div_iff]
    · rw [han, hbn]
      ring
    · exact mul_ne_zero had hbnq
    · exact hb

/-! ### Per-dimension containment checks (§4.4–§4.7) -/

/-- Lower-bound containment with Draft-4 exclusivity flags: the subtype's
minimum must be at least as strong. -/
def minOK (mn1 : Option ℚ) (emn1 : Bool) (mn2 : Option ℚ) (emn2 : Bool) :
    Bool :=
  match mn2 with
  | none => true
  | some b2 =>
    match mn1 with
    | none => false
    | some b1 => b2 < b1 || (b1 == b2 && (!emn2 || emn1))

/-- Upper-bound containment with exclusivity flags. -/
def maxOK (mx1 : Option ℚ) (emx1 : Bool) (mx2 : Option ℚ) (emx2 : Bool) :
    Bool :=
  match mx2 with
  | none => true
  | some b2 =>
    match mx1 with
    | none => false
    | some b1 => b1 < b2 || (b1 == b2 && (!emx2 || emx1))

/-- Divisibility (§4.4 item 3): `c₁.multipleOf / c₂.multipleOf ∈ ℤ>0`, with
exact rational arithmetic; positivity is structural for `MultQ`. -/
def multOK (m1 m2 : Option MultQ) : Bool :=
  match m2 with
  | none => true
  | some m2 =>
    match m1 with
    | none => false
    | some m1 => (ratDiv m1.val m2.val).den == 1

/-- Whether a `multipleOf` payload is a positive integer (§4.4 item 1:
Number <: Integer only then). -/
def multIntegral (m : Option MultQ) : Bool :=
  match m with
  | none => false
  | some m => m.val.den == 1

/-- Enum-set containment (§4.4 item 4): both present → subset; an enum-set on
the right with none on the left is a conservative failure. -/
def enumOK (e1 e2 : Option (List PVal)) : Bool :=
  match e2 with
  | none => true
  | some l2 =>
    match e1 with
    | none => false
    | some l1 => l1.all fun v => l2.contains v

/-- `maxLength`/`maxItems`/`maxProperties` containment over ℕ∪{∞}. -/
def natMaxOK (mx1 mx2 : Option Nat) : Bool :=
  match mx2 with
  | none => true
  | some b2 =>
    match mx1 with
    | none => false
    | some b1 => b1 ≤ b2

/-- Effective item schema of an array at index `i` (§4.6): the tuple prefix
entry when present, else the tail. -/
def effAt (pre : List CSch) (tail : Option CSch) (i : Nat) : Option CSch :=
  match pre.get? i with
  | some s => some s
  | none => tail

/-- The numeric decider (§4.4), all dimensions. -/
def numSub (i1 : Bool) (mn1 : Option ℚ) (emn1 : Bool) (mx1 : Option ℚ)
    (emx1 : Bool) (m1 : Option MultQ) (e1 : Option (List PVal)) (i2 : Bool)
    (mn2 : Option ℚ) (emn2 : Bool) (mx2 : Option ℚ) (emx2 : Bool)
    (m2 : Option MultQ) (e2 : Option (List PVal)) : Bool :=
  (if i2 then i1 || multIntegral m1 else true) &&
    minOK mn1 emn1 mn2 emn2 && maxOK mx1 emx1 mx2 emx2 && multOK m1 m2 &&
    enumOK e1 e2

/-- The string decider (§4.5): length bounds, pattern containment via the
adapter (absent pattern = `.*`), enum sets. -/
def strSub (mn1 : Nat) (mx1 : Option Nat) (p1 : Option Pattern)
    (e1 : Option (List PVal)) (mn2 : Nat) (mx2 : Option Nat)
    (p2 : Option Pattern) (e2 : Option (List PVal)) : Bool :=
  (mn2 ≤ mn1) && natMaxOK mx1 mx2 &&
    pincl (p1.getD [anyStar]) (p2.getD [anyStar]) && enumOK e1 e2

/-- The array decider (§4.6) over an abstract sub-schema comparison `sub`
(the recursive tie provided by the fueled driver).  `subO` compares optional
slots, `none` meaning ⊤. -/
def arrSub (sub : CSch → CSch → Bool) (pre1 : List CSch) (tail1 : Option CSch)
    (mi1 : Nat) (mx1 : Option Nat) (u1 : Bool) (pre2 : List CSch)
    (tail2 : Option CSch) (mi2 : Nat) (mx2 : Option Nat) (u2 : Bool) : Bool :=
  let subO := fun (a b : Option CSch) =>
    match b with
    | none => true
    | some b' => sub (a.getD topSchema) b'
  let nIdx := max pre1.length pre2.length
  let permitted := fun (i : Nat) =>
    match mx1 with
    | none => true
    | some m => decide (i < m)
  (mi2 ≤ mi1) && natMaxOK mx1 mx2 && (!u1 || u2) &&
    ((List.range nIdx).all fun i =>
      !permitted i || subO (effAt pre1 tail1 i) (effAt pre2 tail2 i)) &&
    (!permitted nIdx || subO tail1 tail2)

/-- The object decider (§4.7) over an abstract sub-schema comparison `sub`.
`lsub S₁ S₂` conservatively decides "meet S₁ <: meet S₂": it requires, for
every member of S₂, some member of S₁ below it (sound for meets).  The four
stages follow §4.7: explicit keys of either side; each left pattern against
the overlapping right patterns (falling back to the right residual when the
left pattern is not contained in the right patterns); extraneous right
patterns, permissive when their key language is finite and conservative
(against the left residual) when infinite — the documented behavior of the
pattern-property test suite; and the residuals. -/
def objSub (sub : CSch → CSch → Bool) (pr1 : List (String × CSch))
    (pa1 : List (Pattern × CSch)) (ad1 : Option CSch) (rq1 : List String)
    (mp1 : Nat) (xp1 : Option Nat) (pr2 : List (String × CSch))
    (pa2 : List (Pattern × CSch)) (ad2 : Option CSch) (rq2 : List String)
    (mp2 : Nat) (xp2 : Option Nat) : Bool :=
  let lsub := fun (S1 S2 : List CSch) => S2.all fun b => S1.any fun a => sub a b
  let eff := fun (pr : List (String × CSch)) (pa : List (Pattern × CSch))
      (ad : Option CSch) (k : String) =>
    let base := ((pr.filter fun kv => kv.1 == k).map fun kv => kv.2) ++
      ((pa.filter fun pv => pmatchStr pv.1 k).map fun pv => pv.2)
    if base.isEmpty then [ad.getD topSchema] else base
  (mp2 ≤ mp1) && natMaxOK xp1 xp2 && (rq2.all fun k => rq1.contains k) &&
    (((pr1.map fun kv => kv.1) ++ (pr2.map fun kv => kv.1)).all fun k =>
      lsub (eff pr1 pa1 ad1 k) (eff pr2 pa2 ad2 k)) &&
    (pa1.all fun pv =>
      let side1 := ((pr1.filter fun kv => pmatchStr pv.1 kv.1).map
          fun kv => kv.2) ++
        ((pa1.filter fun qv => pover qv.1 pv.1).map fun qv => qv.2)
      let side2 := ((pa2.filter fun qv => pover qv.1 pv.1).map fun qv => qv.2) ++
        (if pa2.any fun qv => pincl pv.1 qv.1 then [] else [ad2.getD topSchema])
      lsub side1 side2) &&
    (pa2.all fun qv =>
      if pa1.any fun pv => pincl qv.1 pv.1 then true
      else if pfinite qv.1 then true
      else lsub [ad1.getD topSchema] [qv.2]) &&
    (match ad2 with
     | none => true
     | some b => sub (ad1.getD topSchema) b)

/-- The subtype decider on cTSs (§2 item 3), by kind dispatch, with a fuel
for the recursion into array/object member schemas.  Disjoint kinds are never
subtypes; Integer <: Number always, Number <: Integer only via an
integer-valued `multipleOf` (§4.4 item 1). -/
def tsubF : Nat → CTS → CTS → Bool
  | 0, _, _ => false
  | n + 1, t1, t2 =>
    let sub := fun (a b : CSch) => a.all fun t => b.any fun u => tsubF n t u
    match t1, t2 with
    | .cnull e1, .cnull e2 => enumOK e1 e2
    | .cbool e1, .cbool e2 => enumOK e1 e2
    | .cstr mn1 mx1 p1 e1, .cstr mn2 mx2 p2 e2 =>
      strSub mn1 mx1 p1 e1 mn2 mx2 p2 e2
    | .cnum i1 mn1 emn1 mx1 emx1 m1 e1, .cnum i2 mn2 emn2 mx2 emx2 m2 e2 =>
      numSub i1 mn1 emn1 mx1 emx1 m1 e1 i2 mn2 emn2 mx2 emx2 m2 e2
    | .carr pre1 tail1 mi1 mx1 u1, .carr pre2 tail2 mi2 mx2 u2 =>
      arrSub sub pre1 tail1 mi1 mx1 u1 pre2 tail2 mi2 mx2 u2
    | .cobj pr1 pa1 ad1 rq1 mp1 xp1, .cobj pr2 pa2 ad2 rq2 mp2 xp2 =>
      objSub sub pr1 pa1 ad1 rq1 mp1 xp1 pr2 pa2 ad2 rq2 mp2 xp2
    | _, _ => false

/-- Union-level containment (§9, union-of-kinds): every member of the left
union must be a subtype of some member of the right union. -/
def schSubF (n : Nat) (a b : CSch) : Bool :=
  a.all fun t => b.any fun u => tsubF n t u

mutual

/-- Structural size of a cTS, the fuel measure for the decider. -/
def ctsSize : CTS → Nat
  | .cnull _ => 1
  | .cbool _ => 1
  | .cstr _ _ _ _ => 1
  | .cnum _ _ _ _ _ _ _ => 1
  | .carr pre tail _ _ _ => 1 + preSize pre + tailSize tail
  | .cobj props pats addl _ _ _ =>
    1 + propsSize props + patsSize pats + tailSize addl

/-- Size of a canonical union. -/
def cschSize : List CTS → Nat
  | [] => 0
  | t :: r => ctsSize t + cschSize r

/-- Size of a tuple prefix. -/
def preSize : List (List CTS) → Nat
  | [] => 0
  | s :: r => cschSize s + preSize r

/-- Size of an optional schema slot. -/
def tailSize : Option (List CTS) → Nat
  | none => 0
  | some s => cschSize s

/-- Size of a properties map. -/
def propsSize : List (String × List CTS) → Nat
  | [] => 0
  | kv :: r => cschSize kv.2 + propsSize r

/-- Size of a patternProperties map. -/
def patsSize : List (Pattern × List CTS) → Nat
  | [] => 0
  | pv :: r => cschSize pv.2 + patsSize r

end

/-- The subtype decision on canonical schemas, with fuel large enough for the
recursion (each recursive step descends into strictly smaller members). -/
def isSubCanon (a b : CSch) : Bool :=
  schSubF (cschSize a + cschSize b) a b

/-! ## Errors and source schemas

Modelled from the spec: the error taxonomy (§7) and the Draft-4 input
fragment (§6, Input format). -/

/-- Which input of `isSubschema` an error was raised for (§4.1). -/
inductive Side where
  | LHS | RHS
deriving Repr, DecidableEq

/-- The error taxonomy of §7 (the engine-level kinds; `MalformedJson` belongs
to the out-of-scope parser). -/
inductive Err where
  | malformedSchema
  | unresolvedRef (r : String)
  | unsupportedRecursiveRef (which_side : Side) (r : String)
  | unsupportedEnumCanonicalization
  | unsupportedNegatedArray
  | unsupportedNegatedObject
  | regexUnsupported
deriving Repr, DecidableEq

/-- Non-recursive numeric keywords of a source schema (Draft-4 booleans for
exclusivity). -/
structure NumKw where
  mn : Option ℚ := none
  emn : Bool := false
  mx : Option ℚ := none
  emx : Bool := false
  mult : Option ℚ := none
deriving Repr, DecidableEq

/-- Non-recursive string keywords. -/
structure StrKw where
  minL : Option Nat := none
  maxL : Option Nat := none
  pat : Option RawPattern := none
deriving Repr, DecidableEq

/-- Non-recursive array keywords. -/
structure ArrKw where
  minIt : Option Nat := none
  maxIt : Option Nat := none
  uniq : Option Bool := none
deriving Repr, DecidableEq

/-- Non-recursive object keywords. -/
structure ObjKw where
  req : Option (List String) := none
  minPr : Option Nat := none
  maxPr : Option Nat := none
deriving Repr, DecidableEq

/-- A parsed source schema: the Draft-4 fragment of §6.  A `$ref` is a name
into the root's `definitions` map (local JSON-Pointer resolution, §4.1);
literal `true`/`false` schemas are ⊤/⊥ (§4.2). -/
inductive Raw where
  | btrue
  | bfalse
  | sch (type : Option (List Kind)) (enm : Option (List JVal))
      (aAll : List Raw) (aAny : List Raw) (aOne : List Raw)
      (neg : Option Raw) (ref : Option String)
      (defs : List (String × Raw)) (num : NumKw) (strk : StrKw)
      (items : Option Raw) (tup : Option (List Raw)) (addlI : Option Raw)
      (arrk : ArrKw) (props : List (String × Raw))
      (ppats : List (RawPattern × Raw)) (addlP : Option Raw) (objk : ObjKw)
deriving Repr

/-- The schema with no keywords (accepts everything). -/
def rawEmpty : Raw :=
  .sch none none [] [] [] none none [] {} {} none none none {} [] [] none {}

/-- Definitions lookup for `$ref` resolution. -/
def lookupDef (defs : List (String × Raw)) (r : String) : Option Raw :=
  match defs.find? fun d => d.1 == r with
  | some d => some d.2
  | none => none

mutual

/-- Structural node count of a source schema, the canonicalization fuel. -/
def rawSize : Raw → Nat
  | .btrue => 1
  | .bfalse => 1
  | .sch _ _ aAll aAny aOne neg _ _ _ _ items tup addlI _ props ppats addlP
      _ =>
    1 + rawSizeL aAll + rawSizeL aAny + rawSizeL aOne + rawSizeO neg +
      rawSizeO items + rawSizeOL tup + rawSizeO addlI + rawSizeKV props +
      rawSizePV ppats + rawSizeO addlP

/-- Node count of a schema list. -/
def rawSizeL : List Raw → Nat
  | [] => 0
  | s :: r => rawSize s + rawSizeL r

/-- Node count of an optional schema. -/
def rawSizeO : Option Raw → Nat
  | none => 0
  | some s => rawSize s

/-- Node count of an optional schema list. -/
def rawSizeOL : Option (List Raw) → Nat
  | none => 0
  | some l => rawSizeL l

/-- Node count of a properties map. -/
def rawSizeKV : List (String × Raw) → Nat
  | [] => 0
  | kv :: r => rawSize kv.2 + rawSizeKV r

/-- Node count of a patternProperties map. -/
def rawSizePV : List (RawPattern × Raw) → Nat
  | [] => 0
  | pv :: r => rawSize pv.2 + rawSizePV r

end

/-- The `definitions` map of a root schema. -/
def defsOf : Raw → List (String × Raw)
  | .sch _ _ _ _ _ _ _ defs _ _ _ _ _ _ _ _ _ _ => defs
  | _ => []

/-! ### Reference resolution (§4.1)

Modelled from the spec: strictly local JSON-Pointer resolution against the
root document's `definitions`, with a `currently-resolving` stack; re-entering
a pointer already on the stack raises `UnsupportedRecursiveRef` with the side
of `isSubschema` being processed.  The structural fuel bounds the recursion;
it can only run out along a chain of `$ref` jumps longer than the number of
definitions, which the stack check already rejects as recursion, so fuel
exhaustion reports the same error. -/

/-- Retag the side of a recursive-reference error with the side of
`isSubschema` being processed; other errors carry no side. -/
def tagSide (side : Side) : Err → Err
  | .unsupportedRecursiveRef _ r => .unsupportedRecursiveRef side r
  | e => e

/-- Resolve all `$ref` nodes in a schema (fueled); the recursion errors it
raises are retagged with the processing side at the top level. -/
def resolveF : Nat → List (String × Raw) → List String → Raw →
    Except Err Raw
  | 0, _, _, _ => .error (.unsupportedRecursiveRef .LHS "")
  | n + 1, defs, visiting, s =>
    match s with
    | .btrue => .ok .btrue
    | .bfalse => .ok .bfalse
    | .sch type enm aAll aAny aOne neg ref defs0 num strk items tup addlI
        arrk props ppats addlP objk =>
      match ref with
      | some r =>
        if visiting.contains r then
          .error (.unsupportedRecursiveRef .LHS r)
        else
          match lookupDef defs r with
          | none => .error (.unresolvedRef r)
          | some t => resolveF n defs (r :: visiting) t
      | none => do
        let aAll' ← aAll.mapM (resolveF n defs visiting)
        let aAny' ← aAny.mapM (resolveF n defs visiting)
        let aOne' ← aOne.mapM (resolveF n defs visiting)
        let neg' ← match neg with
          | none => pure none
          | some t => do
            let t' ← resolveF n defs visiting t
            pure (some t')
        let items' ← match items with
          | none => pure none
          | some t => do
            let t' ← resolveF n defs visiting t
            pure (some t')
        let tup' ← match tup with
          | none => pure none
          | some l => do
            let l' ← l.mapM (resolveF n defs visiting)
            pure (some l')
        let addlI' ← match addlI with
          | none => pure none
          | some t => do
            let t' ← resolveF n defs visiting t
            pure (some t')
        let props' ← props.mapM fun kv => do
          let v ← resolveF n defs visiting kv.2
          pure (kv.1, v)
        let ppats' ← ppats.mapM fun pv => do
          let v ← resolveF n defs visiting pv.2
          pure (pv.1, v)
        let addlP' ← match addlP with
          | none => pure none
          | some t => do
            let t' ← resolveF n defs visiting t
            pure (some t')
        .ok (.sch type enm aAll' aAny' aOne' neg' none defs0 num strk items'
          tup' addlI' arrk props' ppats' addlP' objk)

/-- Total node count of the definitions bodies. -/
def defsSize (defs : List (String × Raw)) : Nat :=
  rawSizeKV defs

/-- Top-level resolution of one side of a decision (§4.1), with fuel ample
for any alternation of structural descents and distinct `$ref` jumps. -/
def resolveTop (side : Side) (s : Raw) : Except Err Raw :=
  (resolveF (((defsOf s).length + 1) *
      (rawSize s + defsSize (defsOf s) + 1))
    (defsOf s) [] s).mapError (tagSide side)

/-! ## Algebraic operations on canonical schemas (§4.3, §4.8)

Modelled from the spec: intersection (meet) with per-kind payload meets,
distribution over unions, and per-kind negation with its documented
structural limits.  Resource exhaustion in the recursive meet is reported as
the adapter's `RegexUnsupported` (the spec's size-cap policy, §5). -/

/-- gcd of two rationals: `gcd(p/q, r/s) = gcd(p,r)/lcm(q,s)`. -/
def ratGCD (a b : ℚ) : ℚ :=
  mkRat (Int.gcd a.num b.num) (Nat.lcm a.den b.den)

theorem ratGCD_pos {a b : ℚ} (ha : 0 < a) (_hb : 0 < b) : 0 < ratGCD a b := by
  unfold ratGCD
  rw [Rat.mkRat_eq_div]
  apply div_pos
  · have hnum : a.num ≠ 0 := Rat.num_ne_zero.mpr (ne_of_gt ha)
    have : Int.gcd a.num b.num ≠ 0 := fun h =>
      hnum (Int.gcd_eq_zero_iff.mp h).1
    exact_mod_cast Nat.pos_of_ne_zero this
  · have : Nat.lcm a.den b.den ≠ 0 :=
      Nat.lcm_ne_zero a.den_nz b.den_nz
    exact_mod_cast Nat.pos_of_ne_zero this

/-- Rational least common multiple of `multipleOf` divisors (§4.4 Meet:
"LCM the multipleOfs (with rational semantics)"). -/
def ratLCM (a b : MultQ) : MultQ :=
  ⟨ratDiv (ratMul a.val b.val) (ratGCD a.val b.val), by
    rw [ratDiv_eq, ratMul_eq]
    exact div_pos (mul_pos a.2 b.2) (ratGCD_pos a.2 b.2)⟩

/-- Meet of lower bounds: the tighter bound wins; at equal bounds the
exclusivity flags are ORed (§4.4 Meet). -/
def meetMin : Option ℚ × Bool → Option ℚ × Bool → Option ℚ × Bool
  | (none, _), b => b
  | (some a, ea), (none, _) => (some a, ea)
  | (some a, ea), (some b, eb) =>
    if a < b then (some b, eb)
    else if b < a then (some a, ea)
    else (some a, ea || eb)

/-- Meet of upper bounds: the tighter (smaller) bound wins. -/
def meetMax : Option ℚ × Bool → Option ℚ × Bool → Option ℚ × Bool
  | (none, _), b => b
  | (some a, ea), (none, _) => (some a, ea)
  | (some a, ea), (some b, eb) =>
    if b < a then (some b, eb)
    else if a < b then (some a, ea)
    else (some a, ea || eb)

/-- Emptiness of a numeric interval (§3 invariant: `min>max`, or `min=max`
with either bound exclusive). -/
def numEmpty (mn : Option ℚ) (emn : Bool) (mx : Option ℚ) (emx : Bool) :
    Bool :=
  match mn, mx with
  | some a, some b => b < a || (a == b && (emn || emx))
  | _, _ => false

/-- Meet of enum-sets: intersect when both are present. -/
def meetEnum (e1 e2 : Option (List PVal)) : Option (List PVal) :=
  match e1, e2 with
  | none, b => b
  | some l1, none => some l1
  | some l1, some l2 => some (l1.filter fun v => l2.contains v)

/-- An empty enum-set turns the cTS into all-reject (§3 invariant). -/
def enumEmpty (e : Option (List PVal)) : Bool :=
  match e with
  | some l => l.isEmpty
  | none => false

/-- Meet of optional `multipleOf` payloads: rational LCM (§4.4). -/
def meetMult (m1 m2 : Option MultQ) : Option MultQ :=
  match m1, m2 with
  | none, b => b
  | some a, none => some a
  | some a, some b => some (ratLCM a b)

/-- Meet of patterns through the adapter: decided when one containment is
known, otherwise `RegexUnsupported` (§4.9 policy). -/
def meetPat (p1 p2 : Option Pattern) : Except Err (Option Pattern) :=
  match p1, p2 with
  | none, b => .ok b
  | some p, none => .ok (some p)
  | some p, some q =>
    if pincl p q then .ok (some p)
    else if pincl q p then .ok (some q)
    else .error .regexUnsupported

/-- Meet of optional maxima over ℕ∪{∞}. -/
def meetNatMax (a b : Option Nat) : Option Nat :=
  match a, b with
  | none, b => b
  | some a, none => some a
  | some a, some b => some (min a b)

/-- Meet of two cTSs: same-kind payload meet, Integer ⊓ Number = Integer,
disjoint kinds ⊥ (`none`) (§4.3, §4.4–§4.7 Meet); the fuel guards the
recursion into array/object member schemas, exhaustion being the adapter's
size-cap answer (§5) — the callers below always supply enough. -/
def meetTSF : Nat → CTS → CTS → Except Err (Option CTS)
  | 0, _, _ => .error .regexUnsupported
  | n + 1, t1, t2 =>
    let mSch := fun (a b : CSch) => do
      let opts ← (a.flatMap fun t => b.map fun u => (t, u)).mapM fun tu =>
        meetTSF n tu.1 tu.2
      pure (opts.filterMap id)
    let mOpt := fun (a b : Option CSch) =>
      match a, b with
      | none, b => Except.ok b
      | some a', none => Except.ok (some a')
      | some a', some b' => do
        let s ← mSch a' b'
        pure (some s)
    match t1, t2 with
    | .cnull e1, .cnull e2 =>
      let e := meetEnum e1 e2
      .ok (if enumEmpty e then none else some (.cnull e))
    | .cbool e1, .cbool e2 =>
      let e := meetEnum e1 e2
      .ok (if enumEmpty e then none else some (.cbool e))
    | .cstr mn1 mx1 p1 e1, .cstr mn2 mx2 p2 e2 => do
      let p ← meetPat p1 p2
      let mn := max mn1 mn2
      let mx := meetNatMax mx1 mx2
      let e := meetEnum e1 e2
      let empty := enumEmpty e ||
        match mx with
        | some m => decide (m < mn)
        | none => false
      pure (if empty then none else some (.cstr mn mx p e))
    | .cnum i1 mn1 emn1 mx1 emx1 m1 e1, .cnum i2 mn2 emn2 mx2 emx2 m2 e2 =>
      let mn := meetMin (mn1, emn1) (mn2, emn2)
      let mx := meetMax (mx1, emx1) (mx2, emx2)
      let m := meetMult m1 m2
      let e := meetEnum e1 e2
      .ok (if numEmpty mn.1 mn.2 mx.1 mx.2 || enumEmpty e then none
        else some (.cnum (i1 || i2) mn.1 mn.2 mx.1 mx.2 m e))
    | .carr pre1 tail1 mi1 mx1 u1, .carr pre2 tail2 mi2 mx2 u2 => do
      let nIdx := max pre1.length pre2.length
      let pre ← (List.range nIdx).mapM fun i => do
        let s ← mOpt (effAt pre1 tail1 i) (effAt pre2 tail2 i)
        pure (s.getD topSchema)
      let tail ← mOpt tail1 tail2
      let mi := max mi1 mi2
      let mx := meetNatMax mx1 mx2
      let empty :=
        match mx with
        | some b => decide (b < mi)
        | none => false
      pure (if empty then none
        else some (.carr pre tail mi mx (u1 || u2)))
    | .cobj pr1 pa1 ad1 rq1 mp1 xp1, .cobj pr2 pa2 ad2 rq2 mp2 xp2 => do
      let keys := ((pr1.map fun kv => kv.1) ++
        (pr2.map fun kv => kv.1)).dedup
      let lookup := fun (pr : List (String × CSch)) (k : String) =>
        (pr.find? fun kv => kv.1 == k).map fun kv => kv.2
      let pr ← keys.mapM fun k => do
        let s ← mOpt (lookup pr1 k) (lookup pr2 k)
        pure (k, s.getD topSchema)
      let ad ← mOpt ad1 ad2
      let mp := max mp1 mp2
      let xp := meetNatMax xp1 xp2
      let empty :=
        match xp with
        | some b => decide (b < mp)
        | none => false
      pure (if empty then none
        else some (.cobj pr (pa1 ++ pa2) ad ((rq1 ++ rq2).dedup) mp xp))
    | _, _ => .ok none

/-- Meet of canonical schemas: distribute over the unions, dropping ⊥
members (§4.3), with size-sufficient fuel (each meet level strictly shrinks
both sides). -/
def meetSch (a b : CSch) : Except Err CSch := do
  let opts ← (a.flatMap fun t => b.map fun u => (t, u)).mapM fun tu =>
    meetTSF (cschSize a + cschSize b + 1) tu.1 tu.2
  pure (opts.filterMap id)

/-- Whether a canonical array payload is the default (trivial) one; only
the bare `{"type":"array"}` negates without error (§4.8). -/
def arrTrivial (pre : List CSch) (tail : Option CSch) (mi : Nat)
    (mx : Option Nat) (u : Bool) : Bool :=
  pre.isEmpty && tail.isNone && mi == 0 && mx.isNone && !u

/-- Whether a canonical object payload is the default (trivial) one. -/
def objTrivial (pr : List (String × CSch)) (pa : List (Pattern × CSch))
    (ad : Option CSch) (rq : List String) (mp : Nat) (xp : Option Nat) :
    Bool :=
  pr.isEmpty && pa.isEmpty && ad.isNone && rq.isEmpty && mp == 0 &&
    xp.isNone

/-- Union of the default cTSs of every kind except Null. -/
def othersNull : CSch := [dbool, dstr, dnum, darr, dobj]

/-- Union of the default cTSs of every kind except Boolean. -/
def othersBool : CSch := [dnull, dstr, dnum, darr, dobj]

/-- Union of the default cTSs of every kind except String. -/
def othersStr : CSch := [dnull, dbool, dnum, darr, dobj]

/-- Union of the default cTSs of every kind except Number/Integer. -/
def othersNum : CSch := [dnull, dbool, dstr, darr, dobj]

/-- Union of the default cTSs of every kind except Array. -/
def othersArr : CSch := [dnull, dbool, dstr, dnum, dobj]

/-- Union of the default cTSs of every kind except Object. -/
def othersObj : CSch := [dnull, dbool, dstr, dnum, darr]

/-- Negation of a single cTS (§4.8): the union of the other kinds plus the
in-kind complement where representable; arrays and objects with any
non-trivial constraint raise their dedicated errors, while the bare types
negate to the union of the other kinds. -/
def negTS : CTS → Except Err CSch
  | .cnull _ => .ok othersNull
  | .cbool e =>
    match e with
    | none => .ok othersBool
    | some l =>
      let c := [PVal.pbool true, PVal.pbool false].filter fun v =>
        !l.contains v
      .ok (othersBool ++ if c.isEmpty then [] else [.cbool (some c)])
  | .cstr minL maxL pat e =>
    match e with
    | some _ => .ok (othersStr ++ [dstr])
    | none =>
      match pat with
      | some _ => .error .regexUnsupported
      | none =>
        .ok (othersStr ++
          (if 0 < minL then [.cstr 0 (some (minL - 1)) none none] else []) ++
          (match maxL with
           | some m => [.cstr (m + 1) none none none]
           | none => []))
  | .cnum intOnly mn emn mx emx _ e =>
    match e with
    | some _ => .ok (othersNum ++ [dnum])
    | none =>
      .ok (othersNum ++
        (match mn with
         | some b => [.cnum intOnly none false (some b) (!emn) none none]
         | none => []) ++
        (match mx with
         | some b => [.cnum intOnly (some b) (!emx) none false none none]
         | none => []))
  | .carr pre tail mi mx u =>
    if arrTrivial pre tail mi mx u then .ok othersArr
    else .error .unsupportedNegatedArray
  | .cobj pr pa ad rq mp xp =>
    if objTrivial pr pa ad rq mp xp then .ok othersObj
    else .error .unsupportedNegatedObject

/-- Negation of a canonical union by De Morgan: `¬(⋁ᵢ cᵢ) = ⋀ᵢ ¬cᵢ`,
starting from ⊤ (the negation of ⊥) and intersecting (§4.8). -/
def negSch (c : CSch) : Except Err CSch :=
  c.foldlM
    (fun acc t => do
      let nt ← negTS t
      meetSch acc nt)
    topSchema

/-! ## Canonicalizer (§4.2)

Modelled from the spec: rewriting a resolved source schema into canonical
form, by cases on the boolean literals, `enum`, `type`, the connectives and
the kind-specific keywords. -/

/-- Primitive view of an enum literal; array/object literals have no
primitive view (they are rejected, §4.2). -/
def toPVal : JVal → Option PVal
  | .null => some .pnull
  | .bool b => some (.pbool b)
  | .num q => some (.pnum q)
  | .str s => some (.pstr s)
  | .arr _ => none
  | .obj _ => none

/-- Kind test on primitive values (`kint` means integral). -/
def pvalKind (k : Kind) (v : PVal) : Bool :=
  match k, v with
  | .knull, .pnull => true
  | .kbool, .pbool _ => true
  | .kstr, .pstr _ => true
  | .knum, .pnum _ => true
  | .kint, .pnum q => q.den == 1
  | _, _ => false

/-- Whether `q` satisfies an optional lower bound with exclusivity. -/
def boundMinSat (mn : Option ℚ) (emn : Bool) (q : ℚ) : Bool :=
  match mn with
  | none => true
  | some b => b < q || (q == b && !emn)

/-- Whether `q` satisfies an optional upper bound with exclusivity. -/
def boundMaxSat (mx : Option ℚ) (emx : Bool) (q : ℚ) : Bool :=
  match mx with
  | none => true
  | some b => q < b || (q == b && !emx)

/-- Whether `q` is a multiple of the optional divisor (exact rationals). -/
def multSat (m : Option MultQ) (q : ℚ) : Bool :=
  match m with
  | none => true
  | some m => (ratDiv q m.val).den == 1

/-- Whether a primitive enum value satisfies a numeric payload (§3
invariant: every enum element satisfies the rest of the payload). -/
def pvalSatNum (intOnly : Bool) (mn : Option ℚ) (emn : Bool) (mx : Option ℚ)
    (emx : Bool) (m : Option MultQ) (v : PVal) : Bool :=
  match v with
  | .pnum q =>
    (!intOnly || q.den == 1) && boundMinSat mn emn q && boundMaxSat mx emx q &&
      multSat m q
  | _ => false

/-- Whether a primitive enum value satisfies a string payload. -/
def pvalSatStr (minL : Nat) (maxL : Option Nat) (pat : Option Pattern)
    (v : PVal) : Bool :=
  match v with
  | .pstr s =>
    (minL ≤ s.length) &&
      (match maxL with
       | none => true
       | some m => decide (s.length ≤ m)) &&
      (match pat with
       | none => true
       | some p => pmatchStr p s)
  | _ => false

/-- The enum-set contributed to kind `k`: the primitive values of that kind
(§4.2 "group the values by JSON kind"). -/
def enumFor (k : Kind) (enm : Option (List JVal)) : Option (List PVal) :=
  enm.map fun vs => (vs.filterMap toPVal).filter (pvalKind k)


/-- The numeric cTS for kind Number or Integer (shared keywords, §4.2). -/
def buildNum (intOnly : Bool) (enm : Option (List JVal)) (multV : Option MultQ)
    (num : NumKw) : CSch :=
  let k := if intOnly then Kind.kint else Kind.knum
  let e := (enumFor k enm).map fun l =>
    l.filter (pvalSatNum intOnly num.mn num.emn num.mx num.emx multV)
  if numEmpty num.mn num.emn num.mx num.emx || enumEmpty e then []
  else [.cnum intOnly num.mn num.emn num.mx num.emx multV e]

/-- An array keyword set with an unsatisfiable length interval
(`minItems > maxItems` collapses to ⊥, §8). -/
def arrEmptyB (ak : ArrKw) : Bool :=
  match ak.maxIt with
  | some m => decide (m < ak.minIt.getD 0)
  | none => false

/-- An object keyword set with an unsatisfiable cardinality interval. -/
def objEmptyB (ok : ObjKw) : Bool :=
  match ok.maxPr with
  | some m => decide (m < ok.minPr.getD 0)
  | none => false

/-- The cTS contributed by kind `k` (possibly none: all-reject absorbed),
over an abstract canonicalization `canon` for the member schemas (the
recursive tie provided by the fueled driver below). -/
def buildKind (canon : Raw → Except Err CSch) (k : Kind)
    (enm : Option (List JVal)) (multV : Option MultQ) (num : NumKw)
    (strk : StrKw) (items : Option Raw) (tup : Option (List Raw))
    (addlI : Option Raw) (arrk : ArrKw) (props : List (String × Raw))
    (ppats : List (RawPattern × Raw)) (addlP : Option Raw) (objk : ObjKw) :
    Except Err CSch :=
  match k with
  | .knull =>
    let e := enumFor .knull enm
    .ok (if enumEmpty e then [] else [.cnull e])
  | .kbool =>
    let e := enumFor .kbool enm
    .ok (if enumEmpty e then [] else [.cbool e])
  | .kstr => do
    let minL := strk.minL.getD 0
    let pat := strk.pat.map unanchor
    let e := (enumFor .kstr enm).map fun l =>
      l.filter (pvalSatStr minL strk.maxL pat)
    let empty := enumEmpty e ||
      match strk.maxL with
      | some m => decide (m < minL)
      | none => false
    pure (if empty then [] else [.cstr minL strk.maxL pat e])
  | .knum => .ok (buildNum false enm multV num)
  | .kint => .ok (buildNum true enm multV num)
  | .karr => do
    if enm.isSome then pure []
    else do
      let pre ← match tup with
        | some ts => ts.mapM canon
        | none => pure []
      let tail ← match tup with
        | some _ =>
          match addlI with
          | some s => do
            let c ← canon s
            pure (some c)
          | none => pure none
        | none =>
          match items with
          | some s => do
            let c ← canon s
            pure (some c)
          | none => pure none
      pure (if arrEmptyB arrk then []
        else [.carr pre tail (arrk.minIt.getD 0) arrk.maxIt
          (arrk.uniq.getD false)])
  | .kobj => do
    if enm.isSome then pure []
    else do
      let pr ← props.mapM fun kv => do
        let c ← canon kv.2
        pure (kv.1, c)
      let pa ← ppats.mapM fun pv => do
        let c ← canon pv.2
        pure (unanchor pv.1, c)
      let ad ← match addlP with
        | some s => do
          let c ← canon s
          pure (some c)
        | none => pure none
      pure (if objEmptyB objk then []
        else [.cobj pr pa ad (objk.req.getD []) (objk.minPr.getD 0)
          objk.maxPr])

/-- `oneOf` expansion (§4.2): `⋁ᵢ (sᵢ ∧ ⋀ⱼ≠ᵢ ¬sⱼ)`; negation limits
surface as errors, not silently (§4.8). -/
def oneOfExpand (canon : Raw → Except Err CSch) (ss : List Raw) :
    Except Err CSch := do
  let cs ← ss.mapM canon
  let ds ← (List.range cs.length).mapM fun i => do
    (List.range cs.length).foldlM
      (fun acc j =>
        if i == j then pure acc
        else do
          let njc ← negSch (cs.getD j [])
          meetSch acc njc)
      (cs.getD i [])
  pure ds.flatten

/-- One canonicalization step (fueled on the source nesting depth): §4.2
case analysis.  The boolean literals give ⊤/⊥; `enum` values of Array or
Object kind are rejected; `multipleOf ≤ 0` is `MalformedSchema` (§7); the
kind list (explicit `type` or all seven kinds) contributes one cTS per kind
from the kind-relevant keywords, with empty payloads collapsing to
all-reject and absorbed into the union (§3); `allOf`/`anyOf`/`oneOf`/`not`
are folded in by meet, join, pairwise-disjoint expansion and negation. -/
def canonF : Nat → Raw → Except Err CSch
  | 0, _ => .error .regexUnsupported
  | _ + 1, .btrue => .ok topSchema
  | _ + 1, .bfalse => .ok []
  | n + 1, .sch type enm aAll aAny aOne neg ref _ num strk items tup addlI
      arrk props ppats addlP objk => do
    match ref with
    | some r => .error (.unresolvedRef r)
    | none => do
      let multV : Option MultQ ←
        match num.mult with
        | none => pure none
        | some m =>
          if h : 0 < m then pure (some ⟨m, h⟩)
          else .error Err.malformedSchema
      match enm with
      | some vs =>
        if vs.any fun v =>
            match v with
            | .arr _ => true
            | .obj _ => true
            | _ => false then
          .error Err.unsupportedEnumCanonicalization
        else pure ()
      | none => pure ()
      let kinds := type.getD [.knull, .kbool, .kstr, .knum, .kint, .karr,
        .kobj]
      let base ← kinds.foldlM
        (fun (acc : CSch) k => do
          let m ← buildKind (canonF n) k enm multV num strk items tup addlI
            arrk props ppats addlP objk
          pure (acc ++ m))
        ([] : CSch)
      let withAll ← aAll.foldlM
        (fun acc s => do
          let c ← canonF n s
          meetSch acc c)
        base
      let withAny ←
        if aAny.isEmpty then pure withAll
        else do
          let u ← aAny.foldlM
            (fun (acc : CSch) s => do
              let c ← canonF n s
              pure (acc ++ c))
            ([] : CSch)
          meetSch withAll u
      let withOne ←
        if aOne.isEmpty then pure withAny
        else do
          let disj ← oneOfExpand (canonF n) aOne
          meetSch withAny disj
      match neg with
      | none => pure withOne
      | some s => do
        let c ← canonF n s
        let nc ← negSch c
        meetSch withOne nc

/-- Canonicalize a resolved schema with structurally sufficient fuel. -/
def canonicalize (s : Raw) : Except Err CSch :=
  canonF (rawSize s + 1) s

/-! ## Public API (§6)

Modelled from the spec: `isSubschema` resolves and canonicalizes both sides
(errors tagged with the side being processed) and decides containment on the
canonical forms; `is_subschema_with_reason` returns the same decision as a
`SubschemaResult` whose reasons are collected through the `ExplainContext`
of `_explain.py`, empty exactly on `true`. -/

/-- Resolution followed by canonicalization of one side (§2 pipeline). -/
def canonTop (side : Side) (s : Raw) : Except Err CSch := do
  let r ← resolveTop side s
  canonicalize r

/-- The public decision procedure `isSubschema(lhs, rhs)` (§6). -/
def isSubschema (lhs rhs : Raw) : Except Err Bool := do
  let c1 ← canonTop .LHS lhs
  let c2 ← canonTop .RHS rhs
  pure (isSubCanon c1 c2)

/-- The reason code a failing left member contributes (per-kind codes of
§4.4/§4.7; kinds without listExplicit codes use their kind name). -/
def codeOf : CTS → String
  | .cnull _ => "null__01"
  | .cbool _ => "bool__01"
  | .cstr _ _ _ _ => "str__01"
  | .cnum _ _ _ _ _ _ _ => "num__04"
  | .carr _ _ _ _ _ => "arr__01"
  | .cobj _ _ _ _ _ _ => "obj__prop"

/-- The failure message a failing left member contributes. -/
def msgOf : CTS → String
  | .cnull _ => "null member not accepted by RHS"
  | .cbool _ => "boolean member not accepted by RHS"
  | .cstr _ _ _ _ => "string member not accepted by RHS"
  | .cnum _ _ _ _ _ _ _ => "numeric member not accepted by RHS"
  | .carr _ _ _ _ _ => "array member not accepted by RHS"
  | .cobj _ _ _ _ _ _ => "object member not accepted by RHS"

/-- The diagnostic entries for a failed decision: one `add_reason` per left
union member with no right counterpart (the member-wise rule of §9), recorded
through a fresh `ExplainContext` (§2 item 5). -/
def reasonsFor (c1 c2 : CSch) : List String :=
  ((c1.filter fun t =>
    !(c2.any fun u => tsubF (cschSize c1 + cschSize c2) t u)).foldl
    (fun ctx t => ctx.add_reason (codeOf t) (msgOf t))
    ({} : ExplainContext)).reasons

/-- The public `is_subschema_with_reason(lhs, rhs)` (§6). -/
def is_subschema_with_reason (lhs rhs : Raw) : Except Err SubschemaResult := do
  let c1 ← canonTop .LHS lhs
  let c2 ← canonTop .RHS rhs
  let b := isSubCanon c1 c2
  pure ⟨b, if b then [] else reasonsFor c1 c2⟩

/-! ## Instance semantics

Modelled from the spec: Draft-4 instance validation over the supported
keyword fragment (§6 Input format), the reference semantics that defines
"every instance of `lhs` is an instance of `rhs`" (§1).  Instance validation
itself is a non-goal of the engine (§1) but is the spec's correctness
yardstick. -/

/-- Pairwise distinctness of array elements (`uniqueItems`). -/
def distinctB : List JVal → Bool
  | [] => true
  | x :: xs => (!xs.any fun y => jeq x y) && distinctB xs

/-- Draft-4 satisfaction of a source schema by a JSON value, fueled on the
schema nesting depth.  Kind-specific keywords constrain only values of their
kind; an object key is validated against every matching `properties` and
`patternProperties` entry and against `additionalProperties` when none
matches. -/
def satF : Nat → JVal → Raw → Bool
  | 0, _, _ => false
  | _ + 1, _, .btrue => true
  | _ + 1, _, .bfalse => false
  | n + 1, v, .sch type enm aAll aAny aOne neg ref _ num strk items tup addlI
      arrk props ppats addlP objk =>
    ref.isNone &&
    (match type with
     | none => true
     | some ks => ks.any fun k => kindMatches k v) &&
    (match enm with
     | none => true
     | some vs => vs.any fun w => jeq v w) &&
    (aAll.all fun s => satF n v s) &&
    (aAny.isEmpty || aAny.any fun s => satF n v s) &&
    (aOne.isEmpty || (aOne.countP fun s => satF n v s) == 1) &&
    (match neg with
     | none => true
     | some s => !satF n v s) &&
    (match v with
     | .num q =>
       boundMinSat num.mn num.emn q && boundMaxSat num.mx num.emx q &&
         (match num.mult with
          | none => true
          | some m => (ratDiv q m).den == 1)
     | .str s =>
       (match strk.minL with
        | none => true
        | some m => decide (m ≤ s.length)) &&
       (match strk.maxL with
        | none => true
        | some m => decide (s.length ≤ m)) &&
       (match strk.pat with
        | none => true
        | some rp => pmatchStr (unanchor rp) s)
     | .arr xs =>
       (match arrk.minIt with
        | none => true
        | some m => decide (m ≤ xs.length)) &&
       (match arrk.maxIt with
        | none => true
        | some m => decide (xs.length ≤ m)) &&
       (!arrk.uniq.getD false || distinctB xs) &&
       (match tup with
        | some ts =>
          (List.range xs.length).all fun i =>
            match xs.get? i with
            | none => true
            | some x =>
              match ts.get? i with
              | some s => satF n x s
              | none =>
                match addlI with
                | some s => satF n x s
                | none => true
        | none =>
          match items with
          | some s => xs.all fun x => satF n x s
          | none => true)
     | .obj fields =>
       (match objk.minPr with
        | none => true
        | some m => decide (m ≤ fields.length)) &&
       (match objk.maxPr with
        | none => true
        | some m => decide (fields.length ≤ m)) &&
       ((objk.req.getD []).all fun k => fields.any fun kv => kv.1 == k) &&
       (fields.all fun kv =>
         (props.all fun pv => !(pv.1 == kv.1) || satF n kv.2 pv.2) &&
         (ppats.all fun pp =>
           !pmatchStr (unanchor pp.1) kv.1 || satF n kv.2 pp.2) &&
         (if (props.any fun pv => pv.1 == kv.1) ||
             (ppats.any fun pp => pmatchStr (unanchor pp.1) kv.1) then true
          else
            match addlP with
            | some s => satF n kv.2 s
            | none => true))
     | _ => true)

/-- Satisfaction with structurally sufficient fuel. -/
def satisfies (v : JVal) (s : Raw) : Bool :=
  satF (rawSize s + 1) v s

/-! ## Concrete schema builders used by the statements -/

/-- `{"type": k}`. -/
def rawType (k : Kind) : Raw :=
  .sch (some [k]) none [] [] [] none none [] {} {} none none none {} [] []
    none {}

/-- `{"type": "number", ...numeric keywords}`. -/
def rawNumS (nk : NumKw) : Raw :=
  .sch (some [.knum]) none [] [] [] none none [] nk {} none none none {} []
    [] none {}

/-- `{"type": "integer", ...numeric keywords}`. -/
def rawIntS (nk : NumKw) : Raw :=
  .sch (some [.kint]) none [] [] [] none none [] nk {} none none none {} []
    [] none {}

/-- `{"not": s}`. -/
def rawNot (s : Raw) : Raw :=
  .sch none none [] [] [] (some s) none [] {} {} none none none {} [] []
    none {}

/-- `{"type": "array", "items": it, ...array keywords}`. -/
def rawArray (it : Option Raw) (ak : ArrKw) : Raw :=
  .sch (some [.karr]) none [] [] [] none none [] {} {} it none none ak [] []
    none {}

/-- `{"type": "object", ...object keywords}` with properties, pattern
properties and additionalProperties. -/
def rawObject (props : List (String × Raw)) (pp : List (RawPattern × Raw))
    (addl : Option Raw) (ok : ObjKw) : Raw :=
  .sch (some [.kobj]) none [] [] [] none none [] {} {} none none none {}
    props pp addl ok

/-- `{"allOf": ss}`. -/
def rawAllOf (ss : List Raw) : Raw :=
  .sch none none ss [] [] none none [] {} {} none none none {} [] [] none {}

/-- `{"enum": vs}`. -/
def rawEnumS (vs : List JVal) : Raw :=
  .sch none (some vs) [] [] [] none none [] {} {} none none none {} [] []
    none {}

/-- A bare `{"$ref": "#/definitions/r"}` schema. -/
def rawRef (r : String) : Raw :=
  .sch none none [] [] [] none (some r) [] {} {} none none none {} [] []
    none {}

/-- `{"$ref": "#/definitions/person"}`. -/
def refPerson : Raw :=
  .sch none none [] [] [] none (some "person") [] {} {} none none none {} []
    [] none {}

/-- The recursive `person` definition body of
`test_exceptions.test_recursive_ref_in_rhs`: an object whose `children` array
items refer back to `#/definitions/person`. -/
def personBody : Raw :=
  .sch (some [.kobj]) none [] [] [] none none [] {} {} none none none {}
    [("name", rawType .kstr),
     ("children",
       .sch (some [.karr]) none [] [] [] none none [] {} {} (some refPerson)
         none none {} [] [] none {})]
    [] none {}

/-- The root schema of that test: carries the recursive definition and a
property referring to it. -/
def personSchema : Raw :=
  .sch (some [.kobj]) none [] [] [] none none [("person", personBody)] {} {}
    none none none {} [("person", refPerson)] [] none {}

/-- The anchored three-character-class pattern
`^[a-z][A-Z][0-9]$` of `test_complex_regex_character_classes`. -/
def rpClasses : RawPattern :=
  ⟨true, true, [⟨[⟨'a', 'z'⟩], .one⟩, ⟨[⟨'A', 'Z'⟩], .one⟩,
    ⟨[⟨'0', '9'⟩], .one⟩]⟩

/-- The anchored any-three-characters pattern `^...$` of the same test. -/
def rpAny3 : RawPattern :=
  ⟨true, true, [⟨csAny, .one⟩, ⟨csAny, .one⟩, ⟨csAny, .one⟩]⟩

/-- The object schema whose `patternProperties` maps the class pattern to
`{"type":"null"}`. -/
def schClasses : Raw := rawObject [] [(rpClasses, rawType .knull)] none {}

/-- The object schema whose `patternProperties` maps the any-three pattern
to `{"type":"null"}`. -/
def schAny3 : Raw := rawObject [] [(rpAny3, rawType .knull)] none {}

/-- Decidable equality of `Except` results, for concrete evaluations. -/
instance instDecEqExcept {e a : Type} [DecidableEq e] [DecidableEq a] :
    DecidableEq (Except e a) := fun x y =>
  match x, y with
  | .ok v, .ok w =>
    if h : v = w then .isTrue (by rw [h])
    else .isFalse fun hh => h (Except.ok.inj hh)
  | .error u, .error w =>
    if h : u = w then .isTrue (by rw [h])
    else .isFalse fun hh => h (Except.error.inj hh)
  | .ok _, .error _ => .isFalse Except.noConfusion
  | .error _, .ok _ => .isFalse Except.noConfusion

/-! # Theorems -/

theorem minOK_refl (a : Option ℚ) (e : Bool) : minOK a e a e = true := by
  cases a with
  | none => rfl
  | some b => cases e <;> simp [minOK]

theorem maxOK_refl (a : Option ℚ) (e : Bool) : maxOK a e a e = true := by
  cases a with
  | none => rfl
  | some b => cases e <;> simp [maxOK]

theorem multOK_refl (m : Option MultQ) : multOK m m = true := by
  cases m with
  | none => rfl
  | some m =>
    simp [multOK, ratDiv_eq, div_self (ne_of_gt m.2)]

theorem enumOK_refl (e : Option (List PVal)) : enumOK e e = true := by
  cases e with
  | none => rfl
  | some l =>
    simp only [enumOK, List.all_eq_true]
    intro v hv
    exact List.elem_eq_true_of_mem hv

theorem natMaxOK_refl (a : Option Nat) : natMaxOK a a = true := by
  cases a with
  | none => rfl
  | some b => simp [natMaxOK]

theorem numSub_refl (i : Bool) (mn : Option ℚ) (emn : Bool) (mx : Option ℚ)
    (emx : Bool) (m : Option MultQ) (e : Option (List PVal))
    (hint : i = true → (i || multIntegral m) = true) :
    numSub i mn emn mx emx m e i mn emn mx emx m e = true := by
  unfold numSub
  rw [minOK_refl, maxOK_refl, multOK_refl, enumOK_refl]
  cases i with
  | false => simp
  | true => simp [hint rfl]

theorem csSubset_refl (c : CharSet) : csSubset c c = true := by
  simp only [csSubset, List.all_eq_true]
  intro r hr
  simp only [List.any_eq_true]
  exact ⟨r, hr, by simp⟩

theorem pinclF_consStar (n : Nat) (r : Pattern) (c : CharSet)
    (hr : pinclF n r r = true) :
    pinclF (n + 1) r (⟨c, .star⟩ :: r) = true := by
  cases r with
  | nil =>
    show pinclF n [] [] = true
    exact hr
  | cons a r' =>
    rcases a with ⟨d, q⟩
    cases q
    · show (csSubset d c && pinclF n r' (⟨c, .star⟩ :: ⟨d, .one⟩ :: r') ||
        pinclF n (⟨d, .one⟩ :: r') (⟨d, .one⟩ :: r')) = true
      rw [hr]
      simp
    · show (csSubset d c && pinclF n r' (⟨c, .star⟩ :: ⟨d, .plus⟩ :: r') ||
        pinclF n (⟨d, .plus⟩ :: r') (⟨d, .plus⟩ :: r')) = true
      rw [hr]
      simp
    · show (csSubset d c && pinclF n r' (⟨c, .star⟩ :: ⟨d, .star⟩ :: r') ||
        pinclF n (⟨d, .star⟩ :: r') (⟨d, .star⟩ :: r')) = true
      rw [hr]
      simp

theorem pinclF_refl : ∀ n p, 2 * pwt p + 1 ≤ n → pinclF n p p = true := by
  intro n
  induction n using Nat.strong_induction_on with
  | _ n ih =>
    intro p hp
    match n, p with
    | n' + 1, [] => rfl
    | n' + 1, ⟨c, .one⟩ :: p' =>
      show (csSubset c c && pinclF n' p' p') = true
      rw [csSubset_refl, ih n' (by omega) p' (by
        simp only [pwt, List.length_cons, List.countP_cons] at hp ⊢
        omega)]
      rfl
    | n' + 1, ⟨c, .plus⟩ :: p' =>
      show (csSubset c c &&
        pinclF n' (⟨c, .star⟩ :: p') (⟨c, .star⟩ :: p')) = true
      rw [csSubset_refl, ih n' (by omega) (⟨c, .star⟩ :: p') (by
        simp only [pwt, List.length_cons, List.countP_cons] at hp ⊢
        simp at hp ⊢
        omega)]
      rfl
    | n' + 1, ⟨c, .star⟩ :: p' =>
      have hbound : 2 * pwt p' + 1 ≤ n' - 1 := by
        simp only [pwt, List.length_cons, List.countP_cons] at hp ⊢
        simp at hp ⊢
        omega
      have hn' : 1 ≤ n' := by
        simp only [pwt, List.length_cons, List.countP_cons] at hp
        omega
      have hr : pinclF (n' - 1) p' p' = true :=
        ih (n' - 1) (by omega) p' hbound
      have hcs := pinclF_consStar (n' - 1) p' c hr
      rw [Nat.sub_add_cancel hn'] at hcs
      show (csSubset c c && pinclF n' p' (⟨c, .star⟩ :: p') ||
        pinclF n' (⟨c, .star⟩ :: p') p') = true
      rw [csSubset_refl, hcs]
      simp

theorem pincl_refl (p : Pattern) : pincl p p = true := by
  unfold pincl
  exact pinclF_refl (pwt p + pwt p + 1) p (by omega)

theorem strSub_refl (mn : Nat) (mx : Option Nat) (p : Option Pattern)
    (e : Option (List PVal)) : strSub mn mx p e mn mx p e = true := by
  unfold strSub
  rw [natMaxOK_refl, pincl_refl, enumOK_refl]
  simp

/-- C10: for every `SubschemaResult` value, `__bool__` (embedded as
`toBool`) returns exactly the `is_subtype` field, and a result constructed
without an explicit `reasons` argument has `reasons = []` (the
`default_factory=list` default). -/
theorem C10_result_bool_and_default :
    (∀ r : SubschemaResult, r.toBool = r.is_subtype) ∧
    ∀ b : Bool, ({ is_subtype := b } : SubschemaResult).reasons = [] :=
  ⟨fun _ => rfl, fun _ => rfl⟩

/-- C3: every reason recorded by `ExplainContext.add_reason code message` is
exactly the string `"[code] message (at path)"`, where the path string is
`"/"` for an empty path stack and `"/" ++ segments joined by "/"` otherwise,
and a sequence of `add_reason` calls appends its entries in call order. -/
theorem C3_add_reason_format :
    (∀ ctx : ExplainContext, ctx.path = [] → ctx.get_path_str = "/") ∧
    (∀ ctx : ExplainContext, ctx.path ≠ [] →
      ctx.get_path_str = "/" ++ String.intercalate "/" ctx.path) ∧
    (∀ (ctx : ExplainContext) (code message : String),
      (ctx.add_reason code message).reasons = ctx.reasons ++
        ["[" ++ code ++ "] " ++ message ++ " (at " ++ ctx.get_path_str ++
          ")"]) ∧
    (∀ (ctx : ExplainContext) (calls : List (String × String)),
      (calls.foldl (fun c p => c.add_reason p.1 p.2) ctx).reasons =
        ctx.reasons ++ calls.map fun p =>
          "[" ++ p.1 ++ "] " ++ p.2 ++ " (at " ++ ctx.get_path_str ++ ")") := by
  refine ⟨?_, ?_, ?_, ?_⟩
  · intro ctx h
    simp [ExplainContext.get_path_str, h]
  · intro ctx h
    simp [ExplainContext.get_path_str, List.isEmpty_iff, h]
  · intro ctx code message
    rfl
  · intro ctx calls
    induction calls generalizing ctx with
    | nil => simp
    | cons p rest ih =>
      simp only [List.foldl_cons, List.map_cons]
      rw [ih]
      simp [ExplainContext.add_reason, ExplainContext.get_path_str]

/-- Witness for C3 at concrete inputs: a two-segment path renders as
`/a/b`, and a reason recorded at the root renders with path `/`. -/
theorem C3_add_reason_format_witness :
    (ExplainContext.mk [] ["a", "b"]).get_path_str = "/a/b" ∧
    ((ExplainContext.mk [] []).add_reason "num__01" "min violated").reasons =
      ["[num__01] min violated (at /)"] := by
  constructor
  · have h := C3_add_reason_format.2.1 (ExplainContext.mk [] ["a", "b"])
      (by simp)
    rw [h]
    rfl
  · have h := C3_add_reason_format.2.2.1 (ExplainContext.mk [] [])
      "num__01" "min violated"
    rw [h]
    rfl

theorem foldl_add_reason_length (l : List CTS) (ctx : ExplainContext) :
    ((l.foldl (fun c t => c.add_reason (codeOf t) (msgOf t)) ctx).reasons.length)
      = ctx.reasons.length + l.length := by
  induction l generalizing ctx with
  | nil => simp
  | cons t r ih =>
    simp only [List.foldl_cons]
    rw [ih]
    simp [ExplainContext.add_reason]
    omega

theorem reasonsFor_ne_nil {c1 c2 : CSch} (h : isSubCanon c1 c2 = false) :
    reasonsFor c1 c2 ≠ [] := by
  unfold isSubCanon schSubF at h
  have hex : ∃ t ∈ c1,
      (c2.any fun u => tsubF (cschSize c1 + cschSize c2) t u) = false := by
    by_contra hno
    push_neg at hno
    have hall : (c1.all fun t =>
        c2.any fun u => tsubF (cschSize c1 + cschSize c2) t u) = true := by
      rw [List.all_eq_true]
      intro t ht
      exact Bool.eq_true_of_ne_false (hno t ht)
    rw [hall] at h
    cases h
  obtain ⟨t, ht, hfail⟩ := hex
  have hmem : t ∈ c1.filter fun t =>
      !(c2.any fun u => tsubF (cschSize c1 + cschSize c2) t u) :=
    List.mem_filter.mpr ⟨ht, by simp [hfail]⟩
  intro hnil
  have hlen := foldl_add_reason_length
    (c1.filter fun t =>
      !(c2.any fun u => tsubF (cschSize c1 + cschSize c2) t u))
    ({} : ExplainContext)
  unfold reasonsFor at hnil
  rw [hnil] at hlen
  simp only [List.length_nil] at hlen
  have hz : (c1.filter fun t =>
      !(c2.any fun u => tsubF (cschSize c1 + cschSize c2) t u)) = [] := by
    have : (c1.filter fun t =>
        !(c2.any fun u => tsubF (cschSize c1 + cschSize c2) t u)).length
          = 0 := by omega
    exact List.length_eq_zero.mp this
  rw [hz] at hmem
  simp at hmem

/-- C2: whenever `is_subschema_with_reason(lhs, rhs)` returns a result, its
`is_subtype` field equals `isSubschema(lhs, rhs)`, and its `reasons` list is
empty exactly when `is_subtype` is true (non-empty on every failure). -/
theorem C2_with_reason_agrees (lhs rhs : Raw) (r : SubschemaResult)
    (h : is_subschema_with_reason lhs rhs = .ok r) :
    isSubschema lhs rhs = .ok r.is_subtype ∧
      (r.is_subtype = true ↔ r.reasons = []) := by
  unfold is_subschema_with_reason at h
  unfold isSubschema
  cases h1 : canonTop .LHS lhs with
  | error e => rw [h1] at h; exact Except.noConfusion h
  | ok c1 =>
    rw [h1] at h
    cases h2 : canonTop .RHS rhs with
    | error e => rw [h2] at h; exact Except.noConfusion h
    | ok c2 =>
      rw [h2] at h
      have h' : Except.ok (SubschemaResult.mk (isSubCanon c1 c2)
          (if isSubCanon c1 c2 then [] else reasonsFor c1 c2)) =
            Except.ok r := h
      have hr := Except.ok.inj h'
      subst hr
      refine ⟨rfl, ?_⟩
      cases hb : isSubCanon c1 c2 with
      | true => simp
      | false =>
        simp only [Bool.false_eq_true, if_false, false_iff]
        exact reasonsFor_ne_nil hb

/-- Witness for C2 at concrete inputs: integer <: (integer widened to
number) succeeds with empty reasons, and string vs integer fails with a
non-empty reason list. -/
theorem C2_with_reason_agrees_witness :
    (isSubschema (rawType .kint) (rawType .knum) =
        .ok (SubschemaResult.mk true []).is_subtype ∧
      ((SubschemaResult.mk true []).is_subtype = true ↔
        (SubschemaResult.mk true []).reasons = [])) ∧
    (isSubschema (rawType .kstr) (rawType .kint) =
        .ok (SubschemaResult.mk false
          ["[str__01] string member not accepted by RHS (at /)"]).is_subtype ∧
      ((SubschemaResult.mk false
          ["[str__01] string member not accepted by RHS (at /)"]).is_subtype =
            true ↔
        (SubschemaResult.mk false
          ["[str__01] string member not accepted by RHS (at /)"]).reasons =
            [])) :=
  ⟨C2_with_reason_agrees (rawType .kint) (rawType .knum) ⟨true, []⟩
     (by decide),
   C2_with_reason_agrees (rawType .kstr) (rawType .kint)
     ⟨false, ["[str__01] string member not accepted by RHS (at /)"]⟩
     (by decide)⟩

/-- Whether two kinds have disjoint instance sets (all pairs except a kind
with itself and the Integer/Number pair). -/
def kindsDisjoint (k1 k2 : Kind) : Bool :=
  !(k1 == k2) && !(k1 == .knum && k2 == .kint) &&
    !(k1 == .kint && k2 == .knum)

/-- C5: an unsatisfiable numeric interval (`min > max`, or equal bounds with
an exclusive flag) canonicalizes to ⊥ (the empty union), an `allOf` of two
kind-disjoint type schemas canonicalizes to ⊥, ⊥ is a subschema of every
canonicalizable schema, and no schema with a non-⊥ canonical form is a
subschema of ⊥. -/
theorem C5_bottom_schema :
    (∀ nk : NumKw, numEmpty nk.mn nk.emn nk.mx nk.emx = true →
      (∀ m, nk.mult = some m → 0 < m) →
      canonicalize (rawNumS nk) = .ok []) ∧
    (∀ k1 k2 : Kind, kindsDisjoint k1 k2 = true →
      canonicalize (rawAllOf [rawType k1, rawType k2]) = .ok []) ∧
    (∀ lhs rhs : Raw, ∀ c2 : CSch, canonTop .LHS lhs = .ok [] →
      canonTop .RHS rhs = .ok c2 → isSubschema lhs rhs = .ok true) ∧
    (∀ lhs rhs : Raw, ∀ c1 : CSch, canonTop .LHS lhs = .ok c1 → c1 ≠ [] →
      canonTop .RHS rhs = .ok [] → isSubschema lhs rhs = .ok false) := by
  refine ⟨?_, ?_, ?_, ?_⟩
  · intro nk hempty hmult
    cases hm : nk.mult with
    | none =>
      show canonF 2 (rawNumS nk) = .ok []
      simp only [canonF, rawNumS, hm, buildKind, buildNum, hempty,
        Bool.true_or, if_true]
      rfl
    | some m =>
      have hpos := hmult m hm
      show canonF 2 (rawNumS nk) = .ok []
      simp only [canonF, rawNumS, hm, dif_pos hpos, buildKind, buildNum,
        hempty, Bool.true_or, if_true]
      rfl
  · intro k1 k2 h
    cases k1 <;> cases k2 <;> first
      | rfl
      | exact absurd h (by decide)
  · intro lhs rhs c2 h1 h2
    unfold isSubschema
    rw [h1, h2]
    rfl
  · intro lhs rhs c1 h1 hne h2
    unfold isSubschema
    rw [h1, h2]
    cases c1 with
    | nil => exact absurd rfl hne
    | cons t ts => rfl

/-- Witness for C5 at concrete inputs: `minimum 10, maximum 5` collapses to
⊥, `allOf [string, integer]` collapses to ⊥, that ⊥ is a subschema of
`{"type":"number"}`, and `{"type":"number"}` is not a subschema of ⊥. -/
theorem C5_bottom_schema_witness :
    canonicalize (rawNumS {mn := some 10, mx := some 5}) = .ok [] ∧
    canonicalize (rawAllOf [rawType .kstr, rawType .kint]) = .ok [] ∧
    isSubschema (rawNumS {mn := some 10, mx := some 5}) (rawType .knum) =
      .ok true ∧
    isSubschema (rawType .knum) (rawNumS {mn := some 10, mx := some 5}) =
      .ok false :=
  ⟨C5_bottom_schema.1 {mn := some 10, mx := some 5} (by decide)
     (fun m h => Option.noConfusion h),
   C5_bottom_schema.2.1 .kstr .kint (by decide),
   C5_bottom_schema.2.2.1 (rawNumS {mn := some 10, mx := some 5})
     (rawType .knum) [dnum] rfl rfl,
   C5_bottom_schema.2.2.2 (rawType .knum)
     (rawNumS {mn := some 10, mx := some 5}) [dnum] rfl
     (by simp) rfl⟩

theorem canonTop_num (side : Side) (nk : NumKw) (io : Bool) :
    (nk.mult = none →
      canonTop side (if io then rawIntS nk else rawNumS nk) =
        .ok (buildNum io none none nk)) ∧
    ∀ m : MultQ, nk.mult = some m.val →
      canonTop side (if io then rawIntS nk else rawNumS nk) =
        .ok (buildNum io none (some m) nk) := by
  cases io with
  | false =>
    simp only [if_false, Bool.false_eq_true]
    have hres : resolveTop side (rawNumS nk) = .ok (rawNumS nk) := rfl
    constructor
    · intro hm
      unfold canonTop
      rw [hres]
      show canonicalize (rawNumS nk) = _
      show canonF 2 (rawNumS nk) = _
      simp only [canonF, rawNumS, hm]
      rfl
    · intro m hm
      unfold canonTop
      rw [hres]
      show canonicalize (rawNumS nk) = _
      show canonF 2 (rawNumS nk) = _
      simp only [canonF, rawNumS, hm, dif_pos m.2]
      rfl
  | true =>
    simp only [if_true]
    have hres : resolveTop side (rawIntS nk) = .ok (rawIntS nk) := rfl
    constructor
    · intro hm
      unfold canonTop
      rw [hres]
      show canonicalize (rawIntS nk) = _
      show canonF 2 (rawIntS nk) = _
      simp only [canonF, rawIntS, hm]
      rfl
    · intro m hm
      unfold canonTop
      rw [hres]
      show canonicalize (rawIntS nk) = _
      show canonF 2 (rawIntS nk) = _
      simp only [canonF, rawIntS, hm, dif_pos m.2]
      rfl

theorem isSubCanon_single (t u : CTS) :
    isSubCanon [t] [u] =
      (tsubF (ctsSize t + ctsSize u) t u || false) := by
  unfold isSubCanon schSubF
  simp [cschSize]

/-- C6: with identical remaining numeric keywords, the integer schema is
always a subschema of the number schema; conversely, on a satisfiable
interval, the number schema is a subschema of the integer schema exactly
when its `multipleOf` is a positive integer. -/
theorem C6_integer_vs_number (nk : NumKw)
    (hvalid : ∀ m, nk.mult = some m → 0 < m) :
    isSubschema (rawIntS nk) (rawNumS nk) = .ok true ∧
    (numEmpty nk.mn nk.emn nk.mx nk.emx = false →
      (isSubschema (rawNumS nk) (rawIntS nk) = .ok true ↔
        ∃ m, nk.mult = some m ∧ 0 < m ∧ m.den = 1)) := by
  have hsub : ∀ (multV : Option MultQ),
      (canonTop .LHS (rawIntS nk) = .ok (buildNum true none multV nk)) →
      (canonTop .RHS (rawNumS nk) = .ok (buildNum false none multV nk)) →
      (canonTop .LHS (rawNumS nk) = .ok (buildNum false none multV nk)) →
      (canonTop .RHS (rawIntS nk) = .ok (buildNum true none multV nk)) →
      isSubschema (rawIntS nk) (rawNumS nk) = .ok true ∧
      (numEmpty nk.mn nk.emn nk.mx nk.emx = false →
        (isSubschema (rawNumS nk) (rawIntS nk) = .ok true ↔
          multIntegral multV = true)) := by
    intro multV hIL hNR hNL hIR
    constructor
    · unfold isSubschema
      rw [hIL, hNR]
      show Except.ok (isSubCanon (buildNum true none multV nk)
        (buildNum false none multV nk)) = .ok true
      unfold buildNum
      simp only [enumFor, Option.map_none', enumEmpty, Bool.or_false]
      cases he : numEmpty nk.mn nk.emn nk.mx nk.emx with
      | true => rfl
      | false =>
        simp only [Bool.false_eq_true, if_false]
        rw [isSubCanon_single]
        show Except.ok (numSub true nk.mn nk.emn nk.mx nk.emx multV none
          false nk.mn nk.emn nk.mx nk.emx multV none || false) =
            Except.ok true
        unfold numSub
        rw [minOK_refl, maxOK_refl, multOK_refl, enumOK_refl]
        simp
    · intro hne
      unfold isSubschema
      rw [hNL, hIR]
      show Except.ok (isSubCanon (buildNum false none multV nk)
        (buildNum true none multV nk)) = .ok true ↔ _
      unfold buildNum
      simp only [enumFor, Option.map_none', enumEmpty, Bool.or_false, hne,
        Bool.false_eq_true, if_false]
      rw [isSubCanon_single]
      show Except.ok (numSub false nk.mn nk.emn nk.mx nk.emx multV none
        true nk.mn nk.emn nk.mx nk.emx multV none || false) = .ok true ↔ _
      unfold numSub
      rw [minOK_refl, maxOK_refl, multOK_refl, enumOK_refl]
      simp only [if_true, Bool.false_or, Bool.and_true, Bool.true_and,
        Bool.or_false]
      constructor
      · intro h
        exact Except.ok.inj h
      · intro h
        rw [h]
  cases hm : nk.mult with
  | none =>
    have base := hsub none ((canonTop_num .LHS nk true).1 hm)
      ((canonTop_num .RHS nk false).1 hm) ((canonTop_num .LHS nk false).1 hm)
      ((canonTop_num .RHS nk true).1 hm)
    refine ⟨base.1, fun hne => ?_⟩
    rw [(base.2 hne)]
    constructor
    · intro h
      cases h
    · rintro ⟨m, hm', _⟩
      exact Option.noConfusion hm'
  | some m =>
    have hpos := hvalid m hm
    have base := hsub (some ⟨m, hpos⟩)
      ((canonTop_num .LHS nk true).2 ⟨m, hpos⟩ hm)
      ((canonTop_num .RHS nk false).2 ⟨m, hpos⟩ hm)
      ((canonTop_num .LHS nk false).2 ⟨m, hpos⟩ hm)
      ((canonTop_num .RHS nk true).2 ⟨m, hpos⟩ hm)
    refine ⟨base.1, fun hne => ?_⟩
    rw [(base.2 hne)]
    unfold multIntegral
    simp only [beq_iff_eq]
    constructor
    · intro h
      exact ⟨m, rfl, hpos, h⟩
    · rintro ⟨m', hm', _, hden⟩
      obtain rfl := Option.some.inj hm'
      exact hden

/-- Witness for C6 at concrete inputs: bare `integer` <: bare `number`, and
`{"type":"number","multipleOf":1}` and `{"type":"integer"}` are mutual
subschemas while bare `number` is not a subschema of `integer`. -/
theorem C6_integer_vs_number_witness :
    isSubschema (rawIntS {}) (rawNumS {}) = .ok true ∧
    isSubschema (rawNumS {mult := some 1}) (rawIntS {mult := some 1}) =
      .ok true ∧
    isSubschema (rawNumS {}) (rawIntS {}) ≠ .ok true := by
  refine ⟨(C6_integer_vs_number {} (fun m h => Option.noConfusion h)).1,
    ?_, ?_⟩
  · exact ((C6_integer_vs_number {mult := some 1}
      (fun m h => by cases h; norm_num)).2 (by decide)).mpr
      ⟨1, rfl, by norm_num, by decide⟩
  · intro h
    rcases ((C6_integer_vs_number {}
      (fun m hh => Option.noConfusion hh)).2 (by decide)).mp h with
      ⟨m, hm, _⟩
    cases hm

theorem isSubCanon_num_mult (m1 m2 : MultQ) :
    isSubCanon [.cnum false none false none false (some m1) none]
      [.cnum false none false none false (some m2) none] =
      ((ratDiv m1.val m2.val).den == 1) := by
  rw [isSubCanon_single]
  show (numSub false none false none false (some m1) none
    false none false none false (some m2) none || false) = _
  unfold numSub minOK maxOK multOK enumOK
  simp

/-- C7: two bare numeric schemas with `multipleOf` divisors are in the
subschema relation exactly when the quotient of the divisors is a positive
integer, computed with exact rational arithmetic. -/
theorem C7_multipleOf_rational (m1 m2 : ℚ) (h1 : 0 < m1) (h2 : 0 < m2) :
    (isSubschema (rawNumS {mult := some m1}) (rawNumS {mult := some m2}) =
      .ok true) ↔ ((m1 / m2).den = 1 ∧ 0 < m1 / m2) := by
  have hc1 := (canonTop_num .LHS {mult := some m1} false).2 ⟨m1, h1⟩ rfl
  have hc2 := (canonTop_num .RHS {mult := some m2} false).2 ⟨m2, h2⟩ rfl
  simp only [Bool.false_eq_true, if_false] at hc1 hc2
  unfold isSubschema
  rw [hc1, hc2]
  show Except.ok (isSubCanon
    [.cnum false none false none false (some ⟨m1, h1⟩) none]
    [.cnum false none false none false (some ⟨m2, h2⟩) none]) =
      Except.ok true ↔ _
  rw [isSubCanon_num_mult]
  show Except.ok ((ratDiv m1 m2).den == 1) = Except.ok true ↔ _
  rw [ratDiv_eq]
  constructor
  · intro h
    have hb := Except.ok.inj h
    exact ⟨by simpa using hb, div_pos h1 h2⟩
  · rintro ⟨hden, _⟩
    rw [hden]
    rfl

/-- Witness for C7 at the decimal divisors of the tests: `multipleOf 0.2`
<: `multipleOf 0.1` and `multipleOf 4.5` <: `multipleOf 1.5`, neither
reverse holding; the inputs are the exact rationals of those decimals. -/
theorem C7_multipleOf_rational_witness :
    (isSubschema (rawNumS {mult := some (mkRat 2 10)})
      (rawNumS {mult := some (mkRat 1 10)}) = .ok true) ∧
    (isSubschema (rawNumS {mult := some (mkRat 1 10)})
      (rawNumS {mult := some (mkRat 2 10)}) ≠ .ok true) ∧
    (isSubschema (rawNumS {mult := some (mkRat 9 2)})
      (rawNumS {mult := some (mkRat 3 2)}) = .ok true) ∧
    (isSubschema (rawNumS {mult := some (mkRat 3 2)})
      (rawNumS {mult := some (mkRat 9 2)}) ≠ .ok true) ∧
    (mkRat 2 10 : ℚ) = 0.2 ∧ (mkRat 1 10 : ℚ) = 0.1 ∧
    (mkRat 9 2 : ℚ) = 4.5 ∧ (mkRat 3 2 : ℚ) = 1.5 := by
  refine ⟨?_, ?_, ?_, ?_, ?_, ?_, ?_, ?_⟩
  · exact (C7_multipleOf_rational (mkRat 2 10) (mkRat 1 10) (by decide)
      (by decide)).mpr
      ⟨by rw [← ratDiv_eq]; decide, div_pos (by decide) (by decide)⟩
  · intro h
    have hden := ((C7_multipleOf_rational (mkRat 1 10) (mkRat 2 10)
      (by decide) (by decide)).mp h).1
    rw [← ratDiv_eq] at hden
    exact absurd hden (by decide)
  · exact (C7_multipleOf_rational (mkRat 9 2) (mkRat 3 2) (by decide)
      (by decide)).mpr
      ⟨by rw [← ratDiv_eq]; decide, div_pos (by decide) (by decide)⟩
  · intro h
    have hden := ((C7_multipleOf_rational (mkRat 3 2) (mkRat 9 2)
      (by decide) (by decide)).mp h).1
    rw [← ratDiv_eq] at hden
    exact absurd hden (by decide)
  · rw [Rat.mkRat_eq_div]
    norm_num
  · rw [Rat.mkRat_eq_div]
    norm_num
  · rw [Rat.mkRat_eq_div]
    norm_num
  · rw [Rat.mkRat_eq_div]
    norm_num

/-- The default cTS of each kind. -/
def dfltOf : Kind → CTS
  | .knull => dnull
  | .kbool => dbool
  | .kstr => dstr
  | .knum => dnum
  | .kint => dint
  | .karr => darr
  | .kobj => dobj

theorem canonF_rawType (n : Nat) (k : Kind) :
    canonF (n + 1) (rawType k) = .ok [dfltOf k] := by
  cases k <;> rfl

/-- C8: canonicalizing (hence deciding with) a `not` of an array schema
carrying a non-trivial `items`, `minItems`, `maxItems` or `uniqueItems`
raises `UnsupportedNegatedArray`, and a `not` of an object schema carrying a
non-trivial `properties`, `patternProperties`, `additionalProperties`,
`required`, `minProperties` or `maxProperties` raises
`UnsupportedNegatedObject`; negating the bare types succeeds and yields the
union of the other kinds' defaults; canonicalization errors on either side
surface through `isSubschema`. -/
theorem C8_negation_limits :
    (∀ (k : Kind) (ak : ArrKw), arrEmptyB ak = false →
      canonicalize (rawNot (rawArray (some (rawType k)) ak)) =
        .error .unsupportedNegatedArray) ∧
    (∀ ak : ArrKw, arrEmptyB ak = false →
      arrTrivial [] none (ak.minIt.getD 0) ak.maxIt (ak.uniq.getD false) =
        false →
      canonicalize (rawNot (rawArray none ak)) =
        .error .unsupportedNegatedArray) ∧
    (canonicalize (rawNot (rawArray none {})) =
        .ok [dnull, dbool, dstr, dnum, dint, dobj] ∧
      isSubschema (rawType .kstr) (rawNot (rawArray none {})) = .ok true) ∧
    (∀ (key : String) (k : Kind) (ok : ObjKw), objEmptyB ok = false →
      canonicalize (rawNot (rawObject [(key, rawType k)] [] none ok)) =
        .error .unsupportedNegatedObject) ∧
    (∀ (rp : RawPattern) (k : Kind),
      canonicalize (rawNot (rawObject [] [(rp, rawType k)] none {})) =
        .error .unsupportedNegatedObject) ∧
    (canonicalize (rawNot (rawObject [] [] (some .bfalse) {})) =
      .error .unsupportedNegatedObject) ∧
    (∀ ok : ObjKw, objEmptyB ok = false →
      objTrivial [] [] none (ok.req.getD []) (ok.minPr.getD 0) ok.maxPr =
        false →
      canonicalize (rawNot (rawObject [] [] none ok)) =
        .error .unsupportedNegatedObject) ∧
    (canonicalize (rawNot (rawObject [] [] none {})) =
        .ok [dnull, dbool, dstr, dnum, dint, darr] ∧
      isSubschema (rawType .kstr) (rawNot (rawObject [] [] none {})) =
        .ok true) ∧
    (∀ lhs rhs : Raw, ∀ e : Err, canonTop .LHS lhs = .error e →
      isSubschema lhs rhs = .error e) ∧
    (∀ lhs rhs : Raw, ∀ e : Err, ∀ c : CSch, canonTop .LHS lhs = .ok c →
      canonTop .RHS rhs = .error e → isSubschema lhs rhs = .error e) := by
  refine ⟨?_, ?_, ⟨rfl, rfl⟩, ?_, ?_, rfl, ?_, ⟨rfl, rfl⟩, ?_, ?_⟩
  · intro k ak hne
    have h2 : canonF 2 (rawType k) = .ok [dfltOf k] := canonF_rawType 1 k
    have hx : canonF 3 (rawArray (some (rawType k)) ak) =
        Except.bind
          (Except.bind
            (Except.bind
              (Except.bind (canonF 2 (rawType k))
                (fun c => Except.ok (if arrEmptyB ak then []
                  else [CTS.carr [] (some c) (ak.minIt.getD 0) ak.maxIt
                    (ak.uniq.getD false)])))
              (fun m => Except.ok ([] ++ m)))
            (fun b => Except.ok b))
          (fun base => Except.ok base) := rfl
    have hfull : canonicalize (rawNot (rawArray (some (rawType k)) ak)) =
        Except.bind (canonF 3 (rawArray (some (rawType k)) ak))
          (fun c => Except.bind (negSch c) fun nc =>
            meetSch allKindsTop nc) := rfl
    rw [hfull, hx, h2, hne]
    rfl
  · intro ak hne hnt
    have hx : canonicalize (rawNot (rawArray none ak)) =
        Except.bind (negSch (if arrEmptyB ak then []
          else [CTS.carr [] none (ak.minIt.getD 0) ak.maxIt
            (ak.uniq.getD false)]))
          (fun nc => meetSch allKindsTop nc) := rfl
    have hneg : negSch [CTS.carr [] none (ak.minIt.getD 0) ak.maxIt
        (ak.uniq.getD false)] =
        Except.bind (Except.bind
          (negTS (.carr [] none (ak.minIt.getD 0) ak.maxIt
            (ak.uniq.getD false)))
          (fun nt => meetSch topSchema nt)) (fun b => Except.ok b) := rfl
    have hts : negTS (CTS.carr [] none (ak.minIt.getD 0) ak.maxIt
        (ak.uniq.getD false)) = .error .unsupportedNegatedArray := by
      have hy : negTS (CTS.carr [] none (ak.minIt.getD 0) ak.maxIt
          (ak.uniq.getD false)) =
          (if arrTrivial [] none (ak.minIt.getD 0) ak.maxIt
            (ak.uniq.getD false) then Except.ok othersArr
           else Except.error .unsupportedNegatedArray) := rfl
      rw [hy, hnt]
      rfl
    rw [hx, hne]
    simp only [Bool.false_eq_true, if_false]
    rw [hneg, hts]
    rfl
  · intro key k ok hne
    have h2 : canonF 2 (rawType k) = .ok [dfltOf k] := canonF_rawType 1 k
    have hx : canonF 3 (rawObject [(key, rawType k)] [] none ok) =
        Except.bind
          (Except.bind
            (Except.bind
              (Except.bind
                (Except.bind
                  (Except.bind (canonF 2 (rawType k))
                    (fun c => Except.ok (key, c)))
                  (fun b => Except.ok [b]))
                (fun pr => Except.ok (if objEmptyB ok then []
                  else [CTS.cobj pr [] none (ok.req.getD [])
                    (ok.minPr.getD 0) ok.maxPr])))
              (fun m => Except.ok ([] ++ m)))
            (fun b => Except.ok b))
          (fun base => Except.ok base) := rfl
    have hfull : canonicalize (rawNot (rawObject [(key, rawType k)] []
        none ok)) =
        Except.bind (canonF 3 (rawObject [(key, rawType k)] [] none ok))
          (fun c => Except.bind (negSch c) fun nc =>
            meetSch allKindsTop nc) := rfl
    rw [hfull, hx, h2, hne]
    rfl
  · intro rp k
    have h2 : canonF 2 (rawType k) = .ok [dfltOf k] := canonF_rawType 1 k
    have hx : canonF 3 (rawObject [] [(rp, rawType k)] none {}) =
        Except.bind
          (Except.bind
            (Except.bind
              (Except.bind
                (Except.bind
                  (Except.bind (canonF 2 (rawType k))
                    (fun c => Except.ok (unanchor rp, c)))
                  (fun b => Except.ok [b]))
                (fun pa => Except.ok (if objEmptyB {} then []
                  else [CTS.cobj [] pa none (({} : ObjKw).req.getD [])
                    (({} : ObjKw).minPr.getD 0) ({} : ObjKw).maxPr])))
              (fun m => Except.ok ([] ++ m)))
            (fun b => Except.ok b))
          (fun base => Except.ok base) := rfl
    have hfull : canonicalize (rawNot (rawObject [] [(rp, rawType k)]
        none {})) =
        Except.bind (canonF 3 (rawObject [] [(rp, rawType k)] none {}))
          (fun c => Except.bind (negSch c) fun nc =>
            meetSch allKindsTop nc) := rfl
    rw [hfull, hx, h2]
    rfl
  · intro ok hne hnt
    have hx : canonicalize (rawNot (rawObject [] [] none ok)) =
        Except.bind (negSch (if objEmptyB ok then []
          else [CTS.cobj [] [] none (ok.req.getD []) (ok.minPr.getD 0)
            ok.maxPr]))
          (fun nc => meetSch allKindsTop nc) := rfl
    have hneg : negSch [CTS.cobj [] [] none (ok.req.getD [])
        (ok.minPr.getD 0) ok.maxPr] =
        Except.bind (Except.bind
          (negTS (.cobj [] [] none (ok.req.getD []) (ok.minPr.getD 0)
            ok.maxPr))
          (fun nt => meetSch topSchema nt)) (fun b => Except.ok b) := rfl
    have hts : negTS (CTS.cobj [] [] none (ok.req.getD [])
        (ok.minPr.getD 0) ok.maxPr) = .error .unsupportedNegatedObject := by
      have hy : negTS (CTS.cobj [] [] none (ok.req.getD [])
          (ok.minPr.getD 0) ok.maxPr) =
          (if objTrivial [] [] none (ok.req.getD []) (ok.minPr.getD 0)
            ok.maxPr then Except.ok othersObj
           else Except.error .unsupportedNegatedObject) := rfl
      rw [hy, hnt]
      rfl
    rw [hx, hne]
    simp only [Bool.false_eq_true, if_false]
    rw [hneg, hts]
    rfl
  · intro lhs rhs e h
    unfold isSubschema
    rw [h]
    rfl
  · intro lhs rhs e c h1 h2
    unfold isSubschema
    rw [h1, h2]
    rfl

/-- C8 witness: the negation limits at concrete schemas — `not` of
`{"type":"array","items":{"type":"string"}}`, of
`{"type":"array","minItems":2}`, of an object with a `"name"` property, of
an object with a pattern property, and of `{"type":"object","minProperties":1}`
all raise, and a raising side propagates through `isSubschema`. -/
theorem C8_negation_limits_witness :
    canonicalize (rawNot (rawArray (some (rawType .kstr))
        ⟨some 1, none, none⟩)) = .error .unsupportedNegatedArray ∧
    canonicalize (rawNot (rawArray none ⟨some 2, none, none⟩)) =
      .error .unsupportedNegatedArray ∧
    canonicalize (rawNot (rawObject [("name", rawType .kstr)] [] none
        ⟨none, none, none⟩)) = .error .unsupportedNegatedObject ∧
    canonicalize (rawNot (rawObject []
        [(⟨true, true, [⟨[⟨'a', 'z'⟩], .one⟩]⟩, rawType .knum)] none {})) =
      .error .unsupportedNegatedObject ∧
    canonicalize (rawNot (rawObject [] [] none ⟨none, some 1, none⟩)) =
      .error .unsupportedNegatedObject ∧
    isSubschema (rawNot (rawArray none ⟨some 2, none, none⟩)) .btrue =
      .error .unsupportedNegatedArray :=
  ⟨C8_negation_limits.1 .kstr ⟨some 1, none, none⟩ (by decide),
   C8_negation_limits.2.1 ⟨some 2, none, none⟩ (by decide) (by decide),
   C8_negation_limits.2.2.2.1 "name" .kstr ⟨none, none, none⟩ (by decide),
   C8_negation_limits.2.2.2.2.1 ⟨true, true, [⟨[⟨'a', 'z'⟩], .one⟩]⟩ .knum,
   C8_negation_limits.2.2.2.2.2.2.1 ⟨none, some 1, none⟩ (by decide)
     (by decide),
   C8_negation_limits.2.2.2.2.2.2.2.2.1 (rawNot (rawArray none
     ⟨some 2, none, none⟩)) .btrue .unsupportedNegatedArray rfl⟩

/-- C9: re-entering a `$ref` already on the currently-resolving stack raises
`UnsupportedRecursiveRef` carrying the reference name and the side being
resolved; the recursive `person` schema of the test suite errors with side
`LHS` against every right-hand schema when it is the first argument, errors
with side `RHS` whenever the first argument resolves and canonicalizes, and
the decision never returns a boolean with it on either side. -/
theorem C9_recursive_ref :
    (∀ (n : Nat) (side : Side) (defs : List (String × Raw))
      (visiting : List String) (r : String), visiting.contains r = true →
      Except.mapError (tagSide side)
          (resolveF (n + 1) defs visiting (rawRef r)) =
        .error (.unsupportedRecursiveRef side r)) ∧
    (∀ rhs : Raw, isSubschema personSchema rhs =
      .error (.unsupportedRecursiveRef .LHS "person")) ∧
    (∀ (lhs : Raw) (c : CSch), canonTop .LHS lhs = .ok c →
      isSubschema lhs personSchema =
        .error (.unsupportedRecursiveRef .RHS "person")) ∧
    (∀ lhs : Raw, ∃ e : Err, isSubschema lhs personSchema = .error e) := by
  have hlp : canonTop .LHS personSchema =
      .error (.unsupportedRecursiveRef .LHS "person") := rfl
  have hrp : canonTop .RHS personSchema =
      .error (.unsupportedRecursiveRef .RHS "person") := rfl
  have hrhs : ∀ (lhs : Raw) (c : CSch), canonTop .LHS lhs = .ok c →
      isSubschema lhs personSchema =
        .error (.unsupportedRecursiveRef .RHS "person") := by
    intro lhs c h
    unfold isSubschema
    rw [h, hrp]
    rfl
  refine ⟨?_, ?_, hrhs, ?_⟩
  · intro n side defs visiting r h
    have hx : resolveF (n + 1) defs visiting (rawRef r) =
        (if visiting.contains r then
          Except.error (.unsupportedRecursiveRef .LHS r)
        else
          match lookupDef defs r with
          | none => Except.error (.unresolvedRef r)
          | some t => resolveF n defs (r :: visiting) t) := rfl
    rw [hx, h]
    cases side <;> rfl
  · intro rhs
    unfold isSubschema
    rw [hlp]
    rfl
  · intro lhs
    cases hc : canonTop .LHS lhs with
    | error e =>
      refine ⟨e, ?_⟩
      unfold isSubschema
      rw [hc]
      rfl
    | ok c => exact ⟨.unsupportedRecursiveRef .RHS "person", hrhs lhs c hc⟩

theorem canonTop_side_ok (s : Raw) (c : CSch)
    (h : canonTop .LHS s = .ok c) : canonTop .RHS s = .ok c := by
  have hx1 : canonTop .LHS s =
      Except.bind (Except.mapError (tagSide .LHS)
        (resolveF (((defsOf s).length + 1) *
          (rawSize s + defsSize (defsOf s) + 1)) (defsOf s) [] s))
        (fun r => canonicalize r) := rfl
  have hx2 : canonTop .RHS s =
      Except.bind (Except.mapError (tagSide .RHS)
        (resolveF (((defsOf s).length + 1) *
          (rawSize s + defsSize (defsOf s) + 1)) (defsOf s) [] s))
        (fun r => canonicalize r) := rfl
  cases hr : resolveF (((defsOf s).length + 1) *
      (rawSize s + defsSize (defsOf s) + 1)) (defsOf s) [] s with
  | error e =>
    rw [hx1, hr] at h
    exact Except.noConfusion
      (show Except.error (tagSide Side.LHS e) = Except.ok c from h)
  | ok t =>
    rw [hx1, hr] at h
    rw [hx2, hr]
    exact (show canonicalize t = Except.ok c from h)

theorem ctsSize_pos (t : CTS) : 1 ≤ ctsSize t := by
  cases t <;> simp only [ctsSize] <;> omega

theorem mem_cschSize {t : CTS} {s : CSch} (h : t ∈ s) :
    ctsSize t ≤ cschSize s := by
  induction s with
  | nil => cases h
  | cons u r ih =>
    rcases List.mem_cons.mp h with rfl | h'
    · simp only [cschSize]
      omega
    · have := ih h'
      simp only [cschSize]
      omega

theorem mem_preSize {s : CSch} {pre : List CSch} (h : s ∈ pre) :
    cschSize s ≤ preSize pre := by
  induction pre with
  | nil => cases h
  | cons u r ih =>
    rcases List.mem_cons.mp h with rfl | h'
    · simp only [preSize]
      omega
    · have := ih h'
      simp only [preSize]
      omega

theorem mem_propsSize {kv : String × CSch} {pr : List (String × CSch)}
    (h : kv ∈ pr) : cschSize kv.2 ≤ propsSize pr := by
  induction pr with
  | nil => cases h
  | cons u r ih =>
    rcases List.mem_cons.mp h with rfl | h'
    · simp only [propsSize]
      omega
    · have := ih h'
      simp only [propsSize]
      omega

theorem mem_patsSize {pv : Pattern × CSch} {pa : List (Pattern × CSch)}
    (h : pv ∈ pa) : cschSize pv.2 ≤ patsSize pa := by
  induction pa with
  | nil => cases h
  | cons u r ih =>
    rcases List.mem_cons.mp h with rfl | h'
    · simp only [patsSize]
      omega
    · have := ih h'
      simp only [patsSize]
      omega

theorem arrSub_refl (sub : CSch → CSch → Bool) (pre : List CSch)
    (tail : Option CSch) (mi : Nat) (mx : Option Nat) (u : Bool)
    (hp : ∀ s ∈ pre, sub s s = true)
    (ht : ∀ s, tail = some s → sub s s = true) :
    arrSub sub pre tail mi mx u pre tail mi mx u = true := by
  have hsubO : ∀ i : Nat,
      (match effAt pre tail i with
       | none => true
       | some b' => sub ((effAt pre tail i).getD topSchema) b') = true := by
    intro i
    cases heff : effAt pre tail i with
    | none => rfl
    | some s =>
      simp only [Option.getD]
      have hs : s ∈ pre ∨ tail = some s := by
        unfold effAt at heff
        cases hg : pre.get? i with
        | none =>
          rw [hg] at heff
          exact Or.inr heff
        | some s' =>
          rw [hg] at heff
          cases heff
          exact Or.inl (List.get?_mem hg)
      rcases hs with hs | hs
      · exact hp s hs
      · exact ht s hs
  simp only [arrSub, Bool.and_eq_true]
  refine ⟨⟨⟨⟨?_, natMaxOK_refl mx⟩, ?_⟩, ?_⟩, ?_⟩
  · simp
  · cases u <;> rfl
  · rw [List.all_eq_true]
    intro i _
    rw [Bool.or_eq_true]
    exact Or.inr (hsubO i)
  · rw [Bool.or_eq_true]
    refine Or.inr ?_
    cases htl : tail with
    | none => rfl
    | some s =>
      simp only [Option.getD]
      exact ht s htl

theorem objSub_refl (sub : CSch → CSch → Bool) (pr : List (String × CSch))
    (pa : List (Pattern × CSch)) (ad : Option CSch) (rq : List String)
    (mp : Nat) (xp : Option Nat)
    (hpr : ∀ kv ∈ pr, sub kv.2 kv.2 = true)
    (hpa : ∀ pv ∈ pa, sub pv.2 pv.2 = true)
    (had : ∀ s, ad = some s → sub s s = true) :
    objSub sub pr pa ad rq mp xp pr pa ad rq mp xp = true := by
  simp only [objSub, Bool.and_eq_true]
  refine ⟨⟨⟨⟨⟨⟨?_, natMaxOK_refl xp⟩, ?_⟩, ?_⟩, ?_⟩, ?_⟩, ?_⟩
  · simp
  · rw [List.all_eq_true]
    intro k hk
    exact List.elem_eq_true_of_mem hk
  · rw [List.all_eq_true]
    intro k hk
    have hkpr : k ∈ pr.map fun kv => kv.1 := by
      rcases List.mem_append.mp hk with h | h <;> exact h
    obtain ⟨kv, hkv, rfl⟩ := List.mem_map.mp hkpr
    have hbase : kv.2 ∈
        ((pr.filter fun x => x.1 == kv.1).map fun x => x.2) ++
          ((pa.filter fun pv => pmatchStr pv.1 kv.1).map fun pv => pv.2) :=
      List.mem_append_left _
        (List.mem_map.mpr ⟨kv,
          List.mem_filter.mpr ⟨hkv, beq_self_eq_true kv.1⟩, rfl⟩)
    have hne : (((pr.filter fun x => x.1 == kv.1).map fun x => x.2) ++
        ((pa.filter fun pv => pmatchStr pv.1 kv.1).map fun pv => pv.2)
          ).isEmpty = false := by
      cases hb : ((pr.filter fun x => x.1 == kv.1).map fun x => x.2) ++
          ((pa.filter fun pv => pmatchStr pv.1 kv.1).map fun pv => pv.2)
        with
      | nil =>
        rw [hb] at hbase
        cases hbase
      | cons a l => rfl
    rw [hne]
    simp only [Bool.false_eq_true, if_false]
    rw [List.all_eq_true]
    intro b hb
    rw [List.any_eq_true]
    refine ⟨b, hb, ?_⟩
    rcases List.mem_append.mp hb with h | h
    · obtain ⟨kv', hkv', rfl⟩ := List.mem_map.mp h
      exact hpr kv' (List.mem_filter.mp hkv').1
    · obtain ⟨pv', hpv', rfl⟩ := List.mem_map.mp h
      exact hpa pv' (List.mem_filter.mp hpv').1
  · rw [List.all_eq_true]
    intro pv hpv
    have hq : (pa.any fun qv => pincl pv.1 qv.1) = true :=
      List.any_eq_true.mpr ⟨pv, hpv, pincl_refl pv.1⟩
    rw [if_pos hq, List.append_nil, List.all_eq_true]
    intro b hb
    rw [List.any_eq_true]
    refine ⟨b, List.mem_append_right _ hb, ?_⟩
    obtain ⟨qv', hqv', rfl⟩ := List.mem_map.mp hb
    exact hpa qv' (List.mem_filter.mp hqv').1
  · rw [List.all_eq_true]
    intro qv hqv
    have hq : (pa.any fun pv => pincl qv.1 pv.1) = true :=
      List.any_eq_true.mpr ⟨qv, hqv, pincl_refl qv.1⟩
    rw [if_pos hq]
  · cases had' : ad with
    | none => rfl
    | some b =>
      simp only [Option.getD]
      exact had b had'

theorem tsubF_refl (n : Nat) : ∀ t : CTS, ctsSize t ≤ n →
    tsubF n t t = true := by
  induction n with
  | zero =>
    intro t h
    have := ctsSize_pos t
    omega
  | succ n ih =>
    intro t h
    have hsub : ∀ s : CSch, cschSize s ≤ n →
        (s.all fun a => s.any fun b => tsubF n a b) = true := by
      intro s hs
      rw [List.all_eq_true]
      intro a ha
      rw [List.any_eq_true]
      exact ⟨a, ha, ih a (le_trans (mem_cschSize ha) hs)⟩
    match t with
    | .cnull e => exact enumOK_refl e
    | .cbool e => exact enumOK_refl e
    | .cstr mn mx p e => exact strSub_refl mn mx p e
    | .cnum i mn emn mx emx m e =>
      exact numSub_refl i mn emn mx emx m e (fun hh => by rw [hh]; rfl)
    | .carr pre tail mi mx u =>
      have hsz : preSize pre + tailSize tail ≤ n := by
        have : ctsSize (.carr pre tail mi mx u) =
            1 + preSize pre + tailSize tail := rfl
        omega
      show arrSub (fun a b => a.all fun x => b.any fun y => tsubF n x y)
        pre tail mi mx u pre tail mi mx u = true
      refine arrSub_refl _ pre tail mi mx u ?_ ?_
      · intro s hs
        exact hsub s (by have := mem_preSize hs; omega)
      · intro s hstl
        refine hsub s ?_
        have : tailSize tail = cschSize s := by rw [hstl]; rfl
        omega
    | .cobj pr pa ad rq mp xp =>
      have hsz : propsSize pr + patsSize pa + tailSize ad ≤ n := by
        have : ctsSize (.cobj pr pa ad rq mp xp) =
            1 + propsSize pr + patsSize pa + tailSize ad := rfl
        omega
      show objSub (fun a b => a.all fun x => b.any fun y => tsubF n x y)
        pr pa ad rq mp xp pr pa ad rq mp xp = true
      refine objSub_refl _ pr pa ad rq mp xp ?_ ?_ ?_
      · intro kv hkv
        exact hsub kv.2 (by have := mem_propsSize hkv; omega)
      · intro pv hpv
        exact hsub pv.2 (by have := mem_patsSize hpv; omega)
      · intro s hstl
        refine hsub s ?_
        have : tailSize ad = cschSize s := by rw [hstl]; rfl
        omega

theorem isSubCanon_refl (a : CSch) : isSubCanon a a = true := by
  unfold isSubCanon schSubF
  rw [List.all_eq_true]
  intro t ht
  rw [List.any_eq_true]
  exact ⟨t, ht, tsubF_refl (cschSize a + cschSize a) t
    (le_trans (mem_cschSize ht) (by omega))⟩

/-- C4: the decision is reflexive on every schema the resolver and
canonicalizer accept: if the pipeline produces a canonical form for `s`,
then `isSubschema s s` returns `true` (not an error, and not `false`). -/
theorem C4_reflexivity (s : Raw) (c : CSch)
    (h : canonTop .LHS s = .ok c) : isSubschema s s = .ok true := by
  have h2 : canonTop .RHS s = .ok c := canonTop_side_ok s c h
  unfold isSubschema
  rw [h, h2]
  show Except.ok (isSubCanon c c) = Except.ok true
  rw [isSubCanon_refl]

/-- C4 witness: reflexivity at the concrete object schema
`{"type":"object","properties":{"name":{"type":"string"}}}`, whose
canonicalization is accepted. -/
theorem C4_reflexivity_witness :
    canonTop .LHS (rawObject [("name", rawType .kstr)] [] none
        ⟨none, none, none⟩) =
      .ok [.cobj [("name", [dstr])] [] none [] 0 none] ∧
    isSubschema
        (rawObject [("name", rawType .kstr)] [] none ⟨none, none, none⟩)
        (rawObject [("name", rawType .kstr)] [] none ⟨none, none, none⟩) =
      .ok true :=
  ⟨rfl, C4_reflexivity _ [.cobj [("name", [dstr])] [] none [] 0 none] rfl⟩

/-- C9 witness: the re-entry rule at a stack already holding `"p"`, and the
`person` schema of `test_exceptions` erroring with side `LHS` as first
argument, side `RHS` as second argument behind the trivially canonicalizable
`true` schema. -/
theorem C9_recursive_ref_witness :
    Except.mapError (tagSide .LHS) (resolveF 1 [] ["p"] (rawRef "p")) =
      .error (.unsupportedRecursiveRef .LHS "p") ∧
    isSubschema personSchema .btrue =
      .error (.unsupportedRecursiveRef .LHS "person") ∧
    isSubschema .btrue personSchema =
      .error (.unsupportedRecursiveRef .RHS "person") :=
  ⟨C9_recursive_ref.1 0 .LHS [] ["p"] "p" (by decide),
   C9_recursive_ref.2.1 .btrue,
   C9_recursive_ref.2.2.1 .btrue topSchema rfl⟩

theorem boundMinSat_some_iff (b q : ℚ) :
    boundMinSat (some b) false q = true ↔ b ≤ q := by
  simp only [boundMinSat, Bool.not_false, Bool.and_true, Bool.or_eq_true,
    decide_eq_true_eq, beq_iff_eq]
  constructor
  · rintro (h | h)
    · exact le_of_lt h
    · exact le_of_eq h.symm
  · intro h
    rcases lt_or_eq_of_le h with h | h
    · exact Or.inl h
    · exact Or.inr h.symm

theorem boundMaxSat_some_iff (b q : ℚ) :
    boundMaxSat (some b) false q = true ↔ q ≤ b := by
  simp only [boundMaxSat, Bool.not_false, Bool.and_true, Bool.or_eq_true,
    decide_eq_true_eq, beq_iff_eq]
  constructor
  · rintro (h | h)
    · exact le_of_lt h
    · exact le_of_eq h
  · intro h
    rcases lt_or_eq_of_le h with h | h
    · exact Or.inl h
    · exact Or.inr h

theorem minOK_some_iff (b1 b2 : ℚ) :
    minOK (some b1) false (some b2) false = true ↔ b2 ≤ b1 := by
  simp only [minOK, Bool.not_false, Bool.true_or, Bool.and_true,
    Bool.or_eq_true, decide_eq_true_eq, beq_iff_eq]
  constructor
  · rintro (h | h)
    · exact le_of_lt h
    · exact le_of_eq h.symm
  · intro h
    rcases lt_or_eq_of_le h with h | h
    · exact Or.inl h
    · exact Or.inr h.symm

theorem maxOK_some_iff (b1 b2 : ℚ) :
    maxOK (some b1) false (some b2) false = true ↔ b1 ≤ b2 := by
  simp only [maxOK, Bool.not_false, Bool.true_or, Bool.and_true,
    Bool.or_eq_true, decide_eq_true_eq, beq_iff_eq]
  constructor
  · rintro (h | h)
    · exact le_of_lt h
    · exact le_of_eq h
  · intro h
    rcases lt_or_eq_of_le h with h | h
    · exact Or.inl h
    · exact Or.inr h

theorem numEmpty_some_iff (a b : ℚ) :
    numEmpty (some a) false (some b) false = false ↔ a ≤ b := by
  simp only [numEmpty, Bool.or_false, Bool.and_false]
  rw [decide_eq_false_iff_not, not_lt]

theorem numBoundsIff (mn1 mx1 mn2 mx2 : Option ℚ)
    (hne1 : numEmpty mn1 false mx1 false = false) :
    ((minOK mn1 false mn2 false && maxOK mx1 false mx2 false) = true ↔
      ∀ q : ℚ, (boundMinSat mn1 false q && boundMaxSat mx1 false q) = true →
        (boundMinSat mn2 false q && boundMaxSat mx2 false q) = true) := by
  constructor
  · intro hd q hq
    rw [Bool.and_eq_true] at hd
    obtain ⟨hdm, hdx⟩ := hd
    rw [Bool.and_eq_true] at hq
    obtain ⟨hqm, hqx⟩ := hq
    rw [Bool.and_eq_true]
    constructor
    · cases mn2 with
      | none => rfl
      | some b2 =>
        cases mn1 with
        | none => exact Bool.noConfusion hdm
        | some b1 =>
          rw [minOK_some_iff] at hdm
          rw [boundMinSat_some_iff] at hqm ⊢
          linarith
    · cases mx2 with
      | none => rfl
      | some c2 =>
        cases mx1 with
        | none => exact Bool.noConfusion hdx
        | some c1 =>
          rw [maxOK_some_iff] at hdx
          rw [boundMaxSat_some_iff] at hqx ⊢
          linarith
  · intro hcont
    rw [Bool.and_eq_true]
    constructor
    · cases mn2 with
      | none => rfl
      | some b2 =>
        cases mn1 with
        | none =>
          exfalso
          cases mx1 with
          | none =>
            have h := hcont (b2 - 1) rfl
            rw [Bool.and_eq_true] at h
            obtain ⟨h1, _⟩ := h
            rw [boundMinSat_some_iff] at h1
            linarith
          | some c1 =>
            have h := hcont (min (b2 - 1) c1) (by
              rw [Bool.and_eq_true]
              refine ⟨rfl, ?_⟩
              rw [boundMaxSat_some_iff]
              exact min_le_right _ _)
            rw [Bool.and_eq_true] at h
            obtain ⟨h1, _⟩ := h
            rw [boundMinSat_some_iff] at h1
            have hml : min (b2 - 1) c1 ≤ b2 - 1 := min_le_left _ _
            linarith
        | some b1 =>
          rw [minOK_some_iff]
          by_contra hlt
          push_neg at hlt
          have hb1 : (boundMinSat (some b1) false b1 &&
              boundMaxSat mx1 false b1) = true := by
            rw [Bool.and_eq_true]
            refine ⟨(boundMinSat_some_iff b1 b1).mpr le_rfl, ?_⟩
            cases mx1 with
            | none => rfl
            | some c1 =>
              rw [boundMaxSat_some_iff]
              exact (numEmpty_some_iff b1 c1).mp hne1
          have h := hcont b1 hb1
          rw [Bool.and_eq_true] at h
          obtain ⟨h1, _⟩ := h
          rw [boundMinSat_some_iff] at h1
          linarith
    · cases mx2 with
      | none => rfl
      | some c2 =>
        cases mx1 with
        | none =>
          exfalso
          cases mn1 with
          | none =>
            have h := hcont (c2 + 1) rfl
            rw [Bool.and_eq_true] at h
            obtain ⟨_, h2⟩ := h
            rw [boundMaxSat_some_iff] at h2
            linarith
          | some b1 =>
            have h := hcont (max (c2 + 1) b1) (by
              rw [Bool.and_eq_true]
              refine ⟨?_, rfl⟩
              rw [boundMinSat_some_iff]
              exact le_max_right _ _)
            rw [Bool.and_eq_true] at h
            obtain ⟨_, h2⟩ := h
            rw [boundMaxSat_some_iff] at h2
            have hmx : c2 + 1 ≤ max (c2 + 1) b1 := le_max_left _ _
            linarith
        | some c1 =>
          rw [maxOK_some_iff]
          by_contra hlt
          push_neg at hlt
          have hb1 : (boundMinSat mn1 false c1 &&
              boundMaxSat (some c1) false c1) = true := by
            rw [Bool.and_eq_true]
            refine ⟨?_, (boundMaxSat_some_iff c1 c1).mpr le_rfl⟩
            cases mn1 with
            | none => rfl
            | some b1 =>
              rw [boundMinSat_some_iff]
              exact (numEmpty_some_iff b1 c1).mp hne1
          have h := hcont c1 hb1
          rw [Bool.and_eq_true] at h
          obtain ⟨_, h2⟩ := h
          rw [boundMaxSat_some_iff] at h2
          linarith

/-- C1 counterexample: on the `test_complex_regex_character_classes` pair —
two object schemas whose `patternProperties` keys both have finite key
languages — `isSubschema` returns `true` in both directions, yet the
instance `{"abc": 5}` satisfies the character-class schema (the key does not
match `^[a-z][A-Z][0-9]$`, so the property is unconstrained) and does not
satisfy the any-three-characters schema: the claimed equivalence with
instance-set containment fails in the "only if" direction. -/
theorem C1_containment_counterexample :
    isSubschema schClasses schAny3 = .ok true ∧
    isSubschema schAny3 schClasses = .ok true ∧
    pfinite (unanchor rpClasses) = true ∧
    pfinite (unanchor rpAny3) = true ∧
    satisfies (.obj [("abc", .num 5)]) schClasses = true ∧
    satisfies (.obj [("abc", .num 5)]) schAny3 = false :=
  ⟨by decide, by decide, by decide, by decide, by decide, by decide⟩

/-- C1 (amended): on number schemas with inclusive bounds and no
`multipleOf`, with a satisfiable left interval, `isSubschema` returns `true`
exactly when every JSON instance satisfying the left schema satisfies the
right schema. -/
theorem C1_numeric_containment (mn1 mx1 mn2 mx2 : Option ℚ)
    (hne1 : numEmpty mn1 false mx1 false = false) :
    (isSubschema (rawNumS ⟨mn1, false, mx1, false, none⟩)
        (rawNumS ⟨mn2, false, mx2, false, none⟩) = .ok true ↔
      ∀ v : JVal,
        satisfies v (rawNumS ⟨mn1, false, mx1, false, none⟩) = true →
          satisfies v (rawNumS ⟨mn2, false, mx2, false, none⟩) = true) := by
  have hs1 : ∀ q : ℚ,
      satisfies (.num q) (rawNumS ⟨mn1, false, mx1, false, none⟩) =
        (boundMinSat mn1 false q && boundMaxSat mx1 false q) := by
    intro q
    have hx : satisfies (.num q) (rawNumS ⟨mn1, false, mx1, false, none⟩) =
        ((boundMinSat mn1 false q && boundMaxSat mx1 false q) && true) := rfl
    rw [hx, Bool.and_true]
  have hs2 : ∀ q : ℚ,
      satisfies (.num q) (rawNumS ⟨mn2, false, mx2, false, none⟩) =
        (boundMinSat mn2 false q && boundMaxSat mx2 false q) := by
    intro q
    have hx : satisfies (.num q) (rawNumS ⟨mn2, false, mx2, false, none⟩) =
        ((boundMinSat mn2 false q && boundMaxSat mx2 false q) && true) := rfl
    rw [hx, Bool.and_true]
  have hL : canonTop .LHS (rawNumS ⟨mn1, false, mx1, false, none⟩) =
      .ok (buildNum false none none ⟨mn1, false, mx1, false, none⟩) := rfl
  have hR : canonTop .RHS (rawNumS ⟨mn2, false, mx2, false, none⟩) =
      .ok (buildNum false none none ⟨mn2, false, mx2, false, none⟩) := rfl
  have hb1 : buildNum false none none ⟨mn1, false, mx1, false, none⟩ =
      [CTS.cnum false mn1 false mx1 false none none] := by
    have hx : buildNum false none none ⟨mn1, false, mx1, false, none⟩ =
        (if numEmpty mn1 false mx1 false || false then []
         else [CTS.cnum false mn1 false mx1 false none none]) := rfl
    rw [hx, hne1]
    rfl
  have hq0 : ∃ q : ℚ,
      (boundMinSat mn1 false q && boundMaxSat mx1 false q) = true := by
    cases mn1 with
    | none =>
      cases mx1 with
      | none => exact ⟨0, rfl⟩
      | some c1 =>
        refine ⟨c1, ?_⟩
        rw [Bool.and_eq_true]
        exact ⟨rfl, (boundMaxSat_some_iff c1 c1).mpr le_rfl⟩
    | some b1 =>
      refine ⟨b1, ?_⟩
      rw [Bool.and_eq_true]
      refine ⟨(boundMinSat_some_iff b1 b1).mpr le_rfl, ?_⟩
      cases mx1 with
      | none => rfl
      | some c1 =>
        exact (boundMaxSat_some_iff c1 b1).mpr
          ((numEmpty_some_iff b1 c1).mp hne1)
  cases hne2 : numEmpty mn2 false mx2 false with
  | true =>
    have hb2 : buildNum false none none ⟨mn2, false, mx2, false, none⟩ =
        [] := by
      have hx : buildNum false none none ⟨mn2, false, mx2, false, none⟩ =
          (if numEmpty mn2 false mx2 false || false then []
           else [CTS.cnum false mn2 false mx2 false none none]) := rfl
      rw [hx, hne2]
      rfl
    have hdec : isSubschema (rawNumS ⟨mn1, false, mx1, false, none⟩)
        (rawNumS ⟨mn2, false, mx2, false, none⟩) = .ok false := by
      unfold isSubschema
      rw [hL, hR, hb1, hb2]
      rfl
    obtain ⟨b2, c2, hm2, hx2, hcb⟩ :
        ∃ b2 c2 : ℚ, mn2 = some b2 ∧ mx2 = some c2 ∧ c2 < b2 := by
      cases mn2 with
      | none =>
        rw [show numEmpty (none : Option ℚ) false mx2 false = false from
          rfl] at hne2
        exact Bool.noConfusion hne2
      | some b2 =>
        cases mx2 with
        | none =>
          rw [show numEmpty (some b2) false (none : Option ℚ) false =
            false from rfl] at hne2
          exact Bool.noConfusion hne2
        | some c2 =>
          refine ⟨b2, c2, rfl, rfl, ?_⟩
          by_contra hle
          rw [(numEmpty_some_iff b2 c2).mpr (not_lt.mp hle)] at hne2
          exact Bool.noConfusion hne2
    constructor
    · intro h
      rw [hdec] at h
      exact Bool.noConfusion (Except.ok.inj h)
    · intro hcont
      exfalso
      obtain ⟨q0, hq0'⟩ := hq0
      have h := hcont (.num q0) (by rw [hs1]; exact hq0')
      rw [hs2, hm2, hx2, Bool.and_eq_true] at h
      obtain ⟨hmin, hmax⟩ := h
      rw [boundMinSat_some_iff] at hmin
      rw [boundMaxSat_some_iff] at hmax
      linarith
  | false =>
    have hb2 : buildNum false none none ⟨mn2, false, mx2, false, none⟩ =
        [CTS.cnum false mn2 false mx2 false none none] := by
      have hx : buildNum false none none ⟨mn2, false, mx2, false, none⟩ =
          (if numEmpty mn2 false mx2 false || false then []
           else [CTS.cnum false mn2 false mx2 false none none]) := rfl
      rw [hx, hne2]
      rfl
    have hdec : isSubschema (rawNumS ⟨mn1, false, mx1, false, none⟩)
        (rawNumS ⟨mn2, false, mx2, false, none⟩) =
        .ok (minOK mn1 false mn2 false && maxOK mx1 false mx2 false) := by
      unfold isSubschema
      rw [hL, hR, hb1, hb2]
      show Except.ok (isSubCanon
        [CTS.cnum false mn1 false mx1 false none none]
        [CTS.cnum false mn2 false mx2 false none none]) = _
      rw [isSubCanon_single]
      show Except.ok (((minOK mn1 false mn2 false &&
        maxOK mx1 false mx2 false) && true && true) || false) = _
      rw [Bool.and_true, Bool.and_true, Bool.or_false]
    rw [hdec]
    constructor
    · intro h
      have hd := Except.ok.inj h
      intro v hv
      cases v with
      | num q =>
        rw [hs2]
        rw [hs1] at hv
        exact (numBoundsIff mn1 mx1 mn2 mx2 hne1).mp hd q hv
      | null => exact Bool.noConfusion (show false = true from hv)
      | bool b => exact Bool.noConfusion (show false = true from hv)
      | str s => exact Bool.noConfusion (show false = true from hv)
      | arr xs => exact Bool.noConfusion (show false = true from hv)
      | obj fs => exact Bool.noConfusion (show false = true from hv)
    · intro hcont
      have hok : (minOK mn1 false mn2 false &&
          maxOK mx1 false mx2 false) = true := by
        refine (numBoundsIff mn1 mx1 mn2 mx2 hne1).mpr ?_
        intro q hq
        have h := hcont (.num q) (by rw [hs1]; exact hq)
        rw [hs2] at h
        exact h
      rw [hok]

/-- C1 witness: the amended equivalence applied to `[0, 1]` on the left and
`[0, ∞)` on the right, a satisfiable pair. -/
theorem C1_numeric_containment_witness :
    numEmpty (some (0 : ℚ)) false (some (1 : ℚ)) false = false ∧
    (isSubschema (rawNumS ⟨some 0, false, some 1, false, none⟩)
        (rawNumS ⟨some 0, false, none, false, none⟩) = .ok true ↔
      ∀ v : JVal,
        satisfies v (rawNumS ⟨some 0, false, some 1, false, none⟩) = true →
          satisfies v (rawNumS ⟨some 0, false, none, false, none⟩) =
            true) :=
  ⟨by decide,
   C1_numeric_containment (some 0) (some 1) (some 0) none (by decide)⟩

end JsonSub
